import Mathlib

/-!
# kRPC: a shallow embedding of the client call engine and the server dispatch engine

The Go sources embedded here are `client/client.go`, `service/server.go`,
`service/service.go`, `codec/codec.go` and `conf/util.go`.

Conventions of the embedding

* A Go `map[K]V` is an association list with at most one live entry per key
  (`GoMap`): `get` is the Go index expression, `set` the Go assignment
  `m[k] = v`, `delete` the builtin of the same name.
* Pointers to `Call` objects are addresses (`Ptr`) into a heap `World.calls`;
  channels are addresses (`ChanId`) into `World.chans`.
* `uint64` arithmetic is arithmetic on `Nat` modulo `2 ^ 64`.
* A Go `error` is its message; the nil error is `none`.
* On the client the results of the codec (what `ReadHeader`, `ReadBody` and
  `Write` return) are inputs of the functions that call the codec; on the server
  the codec is a stream of values still to be read and the list of frames written
  (`Conn`).
* Goroutines are interleavings of steps (`Sys.step` for the client, `HState.step`
  for `handleRequest`); a step that is not enabled leaves the state as it is.
-/

namespace KRPC

/-! ## Go maps -/

/-- A Go map as an association list. -/
abbrev GoMap (κ : Type) (β : Type) := List (κ × β)

/-- The Go index expression `m[k]`, `none` standing for the zero value of a
pointer-valued map (a nil pointer) or for `ok = false`. -/
def GoMap.get {κ β : Type} [DecidableEq κ] : GoMap κ β → κ → Option β
  | [], _ => none
  | (k, v) :: m, s => if k = s then some v else GoMap.get m s

/-- The Go builtin `delete(m, k)`. -/
def GoMap.delete {κ β : Type} [DecidableEq κ] (m : GoMap κ β) (s : κ) : GoMap κ β :=
  m.filter (fun e => decide (e.1 ≠ s))

/-- The Go assignment `m[k] = v`. -/
def GoMap.set {κ β : Type} [DecidableEq κ] (m : GoMap κ β) (s : κ) (v : β) : GoMap κ β :=
  (s, v) :: GoMap.delete m s

/-- The values stored in a map, one per entry. -/
def GoMap.values {κ β : Type} (m : GoMap κ β) : List β := m.map Prod.snd

/-- The keys of a map. -/
def GoMap.keys {κ β : Type} (m : GoMap κ β) : List κ := m.map Prod.fst

/-! ## Machine integers -/

/-- The modulus of `uint64` arithmetic. -/
def U64 : Nat := 18446744073709551616

/-- The increment `x++` (and `atomic.AddUint64(&x, 1)`) of a `uint64`. -/
def incU64 (x : Nat) : Nat := (x + 1) % U64

/-- Addition of two Go `int` values (64 bit, two's complement). -/
def addInt64 (a b : Int) : Int := (a + b + 9223372036854775808) % 18446744073709551616 - 9223372036854775808

/-! ## Values, headers (codec/codec.go) -/

/-- The Go values that travel as `interface{}` arguments, replies and bodies. -/
inductive Val where
  | nil
  | int (n : Int)
  | str (s : String)
  | args (num1 num2 : Int)
  | invalidRequest
  | emptyMap
  | emptySlice
deriving DecidableEq, Repr

/-- The struct `codec.Header`. -/
structure Header where
  ServiceMethod : String
  Seq : Nat
  Error : String
deriving DecidableEq, Repr

/-- What one `ReadHeader` followed by one `ReadBody` of the codec yields: the
decoded header or the error of `ReadHeader`, and the decoded body or the error
of `ReadBody`. -/
structure Frame where
  h : Except String Header
  body : Except String Val

/-- The error `ReadBody(nil)` returns: the body is consumed and discarded. -/
def readBodyNil (body : Except String Val) : Option String :=
  match body with
  | .ok _ => none
  | .error e => some e

/-- The error a header read returns once the peer has closed the stream (`io.EOF`). -/
def EOF : String := "EOF"

/-! ## The client (client/client.go) -/

/-- The address of a `Call` object. -/
abbrev Ptr := Nat

/-- The address of a `chan *Call`. -/
abbrev ChanId := Nat

/-- The struct `Call`; `Done` is the channel the call is sent on when complete. -/
structure Call where
  Seq : Nat
  ServiceMethod : String
  Args : Val
  Reply : Val
  Error : Option String
  Done : ChanId
deriving DecidableEq, Repr

/-- A buffered channel `chan *Call`: its capacity and the calls waiting in its buffer,
oldest first. -/
structure Chan where
  cap : Nat
  buf : List Ptr
deriving DecidableEq, Repr

/-- The struct `Client` (fields `seq`, `pending`, `closing`, `shutdown`, `header`)
together with the heap it points into (`calls`, `chans` and their allocation
counters) and two histories: `fired` lists, in order, every call on which
`Call.done` has sent, and `blocked` those among them whose send found the channel full
and had to wait for a receiver. -/
structure World where
  seq : Nat
  pending : GoMap Nat Ptr
  closing : Bool
  shutdown : Bool
  header : Header
  calls : Ptr → Call
  nextCall : Ptr
  chans : ChanId → Chan
  nextChan : ChanId
  fired : List Ptr
  blocked : List Ptr

/-- The assignment `*p = c` to a call object. -/
def World.setCall (w : World) (p : Ptr) (c : Call) : World :=
  { w with calls := fun q => if q = p then c else w.calls q }

/-- The update of the channel at address `ch`. -/
def World.setChan (w : World) (ch : ChanId) (c : Chan) : World :=
  { w with chans := fun q => if q = ch then c else w.chans q }

/-- The Go expression `make(chan *Call, cap)`. -/
def World.makeChan (w : World) (cap : Nat) : World × ChanId :=
  ({ (w.setChan w.nextChan { cap := cap, buf := [] }) with nextChan := w.nextChan + 1 }, w.nextChan)

/-- A receive `<-ch` that finds a call in the buffer. -/
def World.recvChan (w : World) (ch : ChanId) : World × Option Ptr :=
  match (w.chans ch).buf with
  | [] => (w, none)
  | p :: rest => (w.setChan ch { (w.chans ch) with buf := rest }, some p)

/-- Whether the channel send `call.Done <- call` of `Call.done` finds the buffer of the channel
full (an unbuffered channel always is): the send then waits until another goroutine
receives from the channel, and with it waits the caller of `Call.done`. -/
def Call.doneWaits (w : World) (call : Ptr) : Bool :=
  decide ((w.chans (w.calls call).Done).cap ≤ (w.chans (w.calls call).Done).buf.length)

/-- The method `Call.done`, the channel send `call.Done <- call`, as the state in which it
returns. With room in the buffer the call is appended at once. On a full (or unbuffered)
channel, where `Call.doneWaits` holds, the send returns only after a receiver took the
oldest element: the state given is the one after that receive, and the call is recorded in
`blocked`. Whether the send returns at all is not decided here: `terminateLoopRun` follows
the sends of `terminateCalls` without a receiver. -/
def Call.done (w : World) (call : Ptr) : World :=
  let ch := (w.calls call).Done
  let c := w.chans ch
  if c.buf.length < c.cap then
    { (w.setChan ch { c with buf := c.buf ++ [call] }) with fired := w.fired ++ [call] }
  else
    { (w.setChan ch { c with buf := (c.buf ++ [call]).drop 1 }) with
      fired := w.fired ++ [call], blocked := w.blocked ++ [call] }

/-- The error `ErrShutdown`. -/
def ErrShutdown : String := "connection has been shutdown"

/-- The method `Client.Close`; the codec's `Close` result is `closeErr`. -/
def Close (w : World) (closeErr : Option String) : World × Option String :=
  if w.closing then (w, some ErrShutdown)
  else ({ w with closing := true }, closeErr)

/-- The method `Client.IsAvailable`. -/
def IsAvailable (w : World) : Bool := !w.closing && !w.shutdown

/-- The method `Client.registerCall`: the new state, the sequence number and the error. -/
def registerCall (w : World) (call : Ptr) : World × Nat × Option String :=
  if w.closing || w.shutdown then (w, 0, some ErrShutdown)
  else
    let w1 := w.setCall call { (w.calls call) with Seq := w.seq }
    let w2 := { w1 with pending := w1.pending.set (w1.calls call).Seq call }
    let w3 := { w2 with seq := incU64 w2.seq }
    (w3, (w3.calls call).Seq, none)

/-- The method `Client.removeCall`. -/
def removeCall (w : World) (seq : Nat) : World × Option Ptr :=
  ({ w with pending := w.pending.delete seq }, w.pending.get seq)

/-- The body of the loop of `terminateCalls` for one pending call. -/
def terminateOne (err : String) (w : World) (call : Ptr) : World :=
  Call.done (w.setCall call { (w.calls call) with Error := some err }) call

/-- The method `Client.terminateCalls`. The loop visits the entries of the pending table
(in the order of the list; Go leaves the order open). -/
def terminateCalls (w : World) (err : String) : World :=
  (GoMap.values w.pending).foldl (terminateOne err) { w with shutdown := true }

/-- Where `terminateCalls` stands as long as no other goroutine receives from a `Done`
channel: the state reached, the call whose send waits on a full channel (`none` when
`terminateCalls` has returned), and the pending calls the loop has not visited yet. -/
structure TerminateRun where
  world : World
  waits : Option Ptr
  unvisited : List Ptr

/-- The loop of `terminateCalls` over the pending calls `calls`, run without any receiver:
`call.Error = err` is assigned, then `call.done()` sends; a send that finds its channel full
waits, and the loop stands there. -/
def terminateLoopRun (err : String) : World → List Ptr → TerminateRun
  | w, [] => { world := w, waits := none, unvisited := [] }
  | w, call :: rest =>
    if Call.doneWaits (w.setCall call { (w.calls call) with Error := some err }) call then
      { world := w.setCall call { (w.calls call) with Error := some err }
        waits := some call
        unvisited := rest }
    else
      terminateLoopRun err (Call.done (w.setCall call { (w.calls call) with Error := some err }) call)
        rest

/-- The method `Client.terminateCalls` run without any receiver on the `Done` channels: it
returns, or it waits in a send, holding `client.sending` and `client.mu`. -/
def terminateCallsRun (w : World) (err : String) : TerminateRun :=
  terminateLoopRun err { w with shutdown := true } (GoMap.values w.pending)

/-- The function `NewClientCodec`: the client before its receive loop has read anything.
No call and no channel is allocated yet. -/
def NewClientCodec : World :=
  { seq := 1
    pending := []
    closing := false
    shutdown := false
    header := { ServiceMethod := "", Seq := 0, Error := "" }
    calls := fun _ => { Seq := 0, ServiceMethod := "", Args := .nil, Reply := .nil, Error := none, Done := 0 }
    nextCall := 0
    chans := fun _ => { cap := 0, buf := [] }
    nextChan := 0
    fired := []
    blocked := [] }

/-- One iteration of the loop of `Client.receive` on the frame (`hdr`, `body`): the new
state and the value of `err` at the end of the iteration. -/
def receiveStep (w : World) (hdr : Except String Header) (body : Except String Val) :
    World × Option String :=
  match hdr with
  | .error e => (w, some e)
  | .ok h =>
    match removeCall w h.Seq with
    | (w1, none) => (w1, readBodyNil body)
    | (w1, some call) =>
      if h.Error.length ≠ 0 then
        let w2 := w1.setCall call { (w1.calls call) with Error := some h.Error }
        (Call.done w2 call, readBodyNil body)
      else
        match body with
        | .ok v => (Call.done (w1.setCall call { (w1.calls call) with Reply := v }) call, none)
        | .error e =>
          (Call.done (w1.setCall call { (w1.calls call) with Error := some ("reading body " ++ e) }) call,
            some e)

/-- The method `Client.receive` on a stream that yields the given frames and then ends:
the loop runs until an iteration leaves an error, then `terminateCalls` runs with it. -/
def receive (w : World) : List Frame → World
  | [] => terminateCalls w EOF
  | f :: fs =>
    match receiveStep w f.h f.body with
    | (w1, none) => receive w1 fs
    | (w1, some e) => terminateCalls w1 e

/-- The first part of `Client.send`, up to the call of the codec's `Write`: registration
and the request header. The result is the sequence number when the call was registered. -/
def sendRegister (w : World) (call : Ptr) : World × Option Nat :=
  match registerCall w call with
  | (w1, _, some err) => (Call.done (w1.setCall call { (w1.calls call) with Error := some err }) call, none)
  | (w1, seq, none) =>
    ({ w1 with header := { ServiceMethod := (w1.calls call).ServiceMethod, Seq := seq, Error := "" } },
      some seq)

/-- The second part of `Client.send`, after `Write` has returned `writeErr`. -/
def sendWritten (w : World) (seq : Nat) (writeErr : Option String) : World :=
  match writeErr with
  | none => w
  | some err =>
    match removeCall w seq with
    | (w1, none) => w1
    | (w1, some call) => Call.done (w1.setCall call { (w1.calls call) with Error := some err }) call

/-- The method `Client.send`, `Write` returning `writeErr`. -/
def send (w : World) (call : Ptr) (writeErr : Option String) : World :=
  match sendRegister w call with
  | (w1, none) => w1
  | (w1, some seq) => sendWritten w1 seq writeErr

/-- The allocation `&Call{ServiceMethod, Args, Reply, Done}` in `Client.Go`. -/
def newCall (w : World) (serviceMethod : String) (args reply : Val) (done : ChanId) : World × Ptr :=
  ({ (w.setCall w.nextCall
        { Seq := 0, ServiceMethod := serviceMethod, Args := args, Reply := reply, Error := none, Done := done })
      with nextCall := w.nextCall + 1 }, w.nextCall)

/-- The method `Client.Go` up to the codec's `Write` (see `sendRegister`): `none` is the
panic on an unbuffered `done` channel; otherwise the new state, the call and the sequence
number under which it was registered, if it was. -/
def GoRegister (w : World) (serviceMethod : String) (args reply : Val) (done : Option ChanId) :
    Option (World × Ptr × Option Nat) :=
  let wd : Option (World × ChanId) :=
    match done with
    | none => some (w.makeChan 10)
    | some ch => if (w.chans ch).cap = 0 then none else some (w, ch)
  match wd with
  | none => none
  | some (w1, ch) =>
    match newCall w1 serviceMethod args reply ch with
    | (w2, call) =>
      match sendRegister w2 call with
      | (w3, seq) => some (w3, call, seq)

/-- The method `Client.Go`, `Write` returning `writeErr`: `none` is the panic on an
unbuffered `done` channel. -/
def Go (w : World) (serviceMethod : String) (args reply : Val) (done : Option ChanId)
    (writeErr : Option String) : Option (World × Ptr) :=
  match GoRegister w serviceMethod args reply done with
  | none => none
  | some (w1, call, none) => some (w1, call)
  | some (w1, call, some seq) => some (sendWritten w1 seq writeErr, call)

/-- The branch `case <-ctx.Done()` of the select in `Client.Call`: the call is removed from
the pending table and the error returned. -/
def CallCancelled (w : World) (call : Ptr) (ctxErr : String) : World × Option String :=
  ((removeCall w (w.calls call).Seq).1, some ("rpc client: call failed " ++ ctxErr))

/-- The branch `case call := <-call.Done` of the select in `Client.Call`, enabled when the
channel holds a call: the error of the call received. -/
def CallCompleted (w : World) (call : Ptr) : Option (World × Option String) :=
  match World.recvChan w (w.calls call).Done with
  | (_, none) => none
  | (w1, some c) => some (w1, (w1.calls c).Error)

/-- The first statement of `Client.Call`:
`client.Go(serviceMethod, args, reply, make(chan *Call, 1))`. The channel made has capacity
1, so the panic of `Go` on an unbuffered channel is not taken (the last branch). -/
def CallGo (w : World) (serviceMethod : String) (args reply : Val) (writeErr : Option String) :
    World × Ptr :=
  match w.makeChan 1 with
  | (w1, ch) =>
    match Go w1 serviceMethod args reply (some ch) writeErr with
    | some r => r
    | none => (w1, w1.nextCall)

/-- One call of `TestServeDay3`: `Foo.Sum` with `Num1 = i * i` and `Num2 = i`, the write
succeeding. -/
def issueSum (w : World) (i : Nat) : World :=
  (CallGo w "Foo.Sum" (.args (i * i) i) (.int 0) none).1

/-- The client of `TestServeDay3` once its five calls are written: call `i` is the object
at address `i` and is pending under sequence number `i + 1`. -/
def fiveCalls : World := [0, 1, 2, 3, 4].foldl issueSum NewClientCodec

/-- A response frame without error. -/
def okFrame (seq : Nat) (v : Val) : Frame :=
  { h := .ok { ServiceMethod := "Foo.Sum", Seq := seq, Error := "" }, body := .ok v }

/-- The five responses to `fiveCalls`, arriving in the order 3, 1, 5, 2, 4 of their
sequence numbers, each carrying `Num1 + Num2` of its request. -/
def fiveResponses : List Frame :=
  [okFrame 3 (.int 6), okFrame 1 (.int 0), okFrame 5 (.int 20), okFrame 2 (.int 2), okFrame 4 (.int 12)]

/-- Two calls issued through `Client.Go` with one and the same `done` channel of capacity 1,
both written and both still pending. -/
def sharedDone : World :=
  match NewClientCodec.makeChan 1 with
  | (w0, ch) =>
    match Go w0 "Foo.Sum" (.args 1 1) (.int 0) (some ch) none with
    | none => w0
    | some (w1, _) =>
      match Go w1 "Foo.Sum" (.args 4 2) (.int 0) (some ch) none with
      | none => w1
      | some (w2, _) => w2

/-- Three calls issued through `Client.Go` with one and the same `done` channel of capacity
1, all written and all still pending. -/
def sharedDoneThree : World :=
  match Go sharedDone "Foo.Sum" (.args 9 3) (.int 0) (some 0) none with
  | none => sharedDone
  | some (w3, _) => w3

/-- The buffers have room for the completion of every pending call: for each pending call,
the calls already in the buffer of its `Done` channel and the pending calls that send on
that channel together do not exceed its capacity. -/
def RoomForPending (w : World) : Prop :=
  ∀ p ∈ GoMap.values w.pending,
    (w.chans (w.calls p).Done).buf.length +
      (GoMap.values w.pending).countP (fun q => decide ((w.calls q).Done = (w.calls p).Done))
      ≤ (w.chans (w.calls p).Done).cap

/-! ## Runs of the client -/

/-- One use of the client: a call of one of its methods (with the results of the codec it
meets), or an operation of the caller on a channel. -/
inductive ClientOp where
  | register (call : Ptr)
  | remove (seq : Nat)
  | terminate (err : String)
  | close (closeErr : Option String)
  | frame (hdr : Except String Header) (body : Except String Val)
  | go (serviceMethod : String) (args reply : Val) (done : Option ChanId) (writeErr : Option String)
  | cancel (call : Ptr) (ctxErr : String)
  | makeChan (cap : Nat)
  | recvChan (ch : ChanId)

/-- The state after one use of the client, and the sequence number `registerCall` assigned
in it, if it ran and succeeded. -/
def ClientOp.apply (w : World) : ClientOp → World × Option Nat
  | .register call =>
    match registerCall w call with
    | (w1, seq, none) => (w1, some seq)
    | (w1, _, some _) => (w1, none)
  | .remove seq => ((removeCall w seq).1, none)
  | .terminate err => (terminateCalls w err, none)
  | .close closeErr => ((Close w closeErr).1, none)
  | .frame hdr body => ((receiveStep w hdr body).1, none)
  | .go serviceMethod args reply done writeErr =>
    match GoRegister w serviceMethod args reply done with
    | none => (w, none)
    | some (w1, _, none) => (w1, none)
    | some (w1, _, some seq) => (sendWritten w1 seq writeErr, some seq)
  | .cancel call ctxErr => ((CallCancelled w call ctxErr).1, none)
  | .makeChan cap => ((w.makeChan cap).1, none)
  | .recvChan ch => ((w.recvChan ch).1, none)

/-- The state after a run of uses, and the sequence numbers assigned during it by the
successful calls of `registerCall`, in order. -/
def runOps (w : World) : List ClientOp → World × List Nat
  | [] => (w, [])
  | op :: ops =>
    match ClientOp.apply w op with
    | (w1, none) => runOps w1 ops
    | (w1, some seq) => ((runOps w1 ops).1, seq :: (runOps w1 ops).2)

/-- Where the goroutine `client.receive()` stands: in its loop, out of the loop with the
error that ended it and about to call `terminateCalls`, or returned. -/
inductive RecvPc where
  | running
  | failed (err : String)
  | exited
deriving DecidableEq, Repr

/-- A client and the goroutines that work on it: the receive goroutine (`recv`) and the
holder of the mutex `sending` (`writing`): a `send` that has registered its call under the
given sequence number and whose `Write` has not returned yet. -/
structure Sys where
  w : World
  recv : RecvPc
  writing : Option Nat

/-- The steps of the goroutines. Every step runs under the mutex `mu`, and `go`, `written`
and `terminate` under the mutex `sending` too. -/
inductive Event where
  | makeChan (cap : Nat)
  | recvChan (ch : ChanId)
  | go (serviceMethod : String) (args reply : Val) (done : Option ChanId)
  | written (writeErr : Option String)
  | frame (hdr : Except String Header) (body : Except String Val)
  | terminate
  | cancel (call : Ptr) (ctxErr : String)
  | close (closeErr : Option String)

/-- One step. An event that is not enabled (the mutex `sending` is held, there is no write
in flight, the receive loop is over, `Go` panics) leaves the state as it is.
* `go`: `Client.Go` up to the call of `Write` (registration included); when the call was
  registered the mutex `sending` stays held until `written`.
* `written`: `Write` returns and `send` finishes, removing and completing the call when
  the write failed.
* `frame`: one iteration of the loop of `receive`.
* `terminate`: the call of `terminateCalls` that ends `receive`.
* `cancel`: the branch `<-ctx.Done()` of `Call`. -/
def Sys.step (s : Sys) : Event → Sys
  | .makeChan cap => { s with w := (s.w.makeChan cap).1 }
  | .recvChan ch => { s with w := (s.w.recvChan ch).1 }
  | .go serviceMethod args reply done =>
    match s.writing with
    | some _ => s
    | none =>
      match GoRegister s.w serviceMethod args reply done with
      | none => s
      | some (w1, _, seq) => { s with w := w1, writing := seq }
  | .written writeErr =>
    match s.writing with
    | none => s
    | some seq => { s with w := sendWritten s.w seq writeErr, writing := none }
  | .frame hdr body =>
    match s.recv with
    | .running =>
      match receiveStep s.w hdr body with
      | (w1, none) => { s with w := w1 }
      | (w1, some err) => { s with w := w1, recv := .failed err }
    | _ => s
  | .terminate =>
    match s.recv, s.writing with
    | .failed err, none => { s with w := terminateCalls s.w err, recv := .exited }
    | _, _ => s
  | .cancel call ctxErr => { s with w := (CallCancelled s.w call ctxErr).1 }
  | .close closeErr => { s with w := (Close s.w closeErr).1 }

/-- The client as `NewClientCodec` returns it, its receive goroutine started. -/
def Sys.init : Sys := { w := NewClientCodec, recv := .running, writing := none }

/-- The state after a sequence of steps. -/
def Sys.run (s : Sys) (evs : List Event) : Sys := evs.foldl Sys.step s

/-- A run of the goroutines that meets every way of completing a call: four calls are
issued; the write of the first fails; the response to the second arrives; a late response
for the first arrives (unknown sequence number); the caller of the third gives up; the
stream breaks and `receive` terminates with the fourth call pending; a fifth call is
refused. -/
def sampleRun : List Event :=
  [ .go "Foo.Sum" (.args 0 0) (.int 0) none, .written (some "broken pipe"),
    .go "Foo.Sum" (.args 1 1) (.int 0) none, .written none,
    .go "Foo.Sum" (.args 4 2) (.int 0) none, .written none,
    .go "Foo.Sum" (.args 9 3) (.int 0) none, .written none,
    .frame (.ok { ServiceMethod := "Foo.Sum", Seq := 2, Error := "" }) (.ok (.int 2)),
    .frame (.ok { ServiceMethod := "Foo.Sum", Seq := 1, Error := "" }) (.ok (.int 0)),
    .cancel 2 "context deadline exceeded",
    .frame (.error "unexpected EOF") (.ok .nil),
    .terminate,
    .go "Foo.Sum" (.args 16 4) (.int 0) none,
    .cancel 3 "context deadline exceeded",
    .terminate ]

/-- One asynchronous call `client.Go("Foo.Sum", args, &reply, nil)` whose write succeeds. -/
def goSum : ClientOp := .go "Foo.Sum" (.args 1 1) (.int 0) none none

/-- The invariant of the client and its goroutines: no call was signalled twice; the calls
signalled and the calls pending are allocated; no call is pending under two keys; until
`receive` has returned no pending call was signalled; once it has returned the client is
shut down and no write is in flight. -/
def Sys.Inv (s : Sys) : Prop :=
  s.w.fired.Nodup ∧
  (∀ p ∈ s.w.fired, p < s.w.nextCall) ∧
  (∀ p ∈ GoMap.values s.w.pending, p < s.w.nextCall) ∧
  (GoMap.values s.w.pending).Nodup ∧
  (s.recv ≠ .exited → ∀ p ∈ GoMap.values s.w.pending, p ∉ s.w.fired) ∧
  (s.recv = .exited → s.w.shutdown = true ∧ s.writing = none)

/-- The effect on the pending table and on the signals of a method that removes `seq`:
the entry is deleted, and either no call is signalled or the call removed is. -/
def Removes (w w1 : World) (seq : Nat) : Prop :=
  w1.pending = w.pending.delete seq ∧ w1.nextCall = w.nextCall ∧ w1.shutdown = w.shutdown ∧
  (w1.fired = w.fired ∨ ∃ c, w.pending.get seq = some c ∧ w1.fired = w.fired ++ [c])

/-! ## Types and methods as `reflect` shows them (service/service.go) -/

/-- The kinds of `reflect.Kind` that the code tells apart, and the rest. -/
inductive Kind where
  | Int
  | String
  | Struct
  | Interface
  | Ptr
  | Map
  | Slice
deriving DecidableEq, Repr

/-- A Go type as `reflect.Type` shows it: a named type (predeclared or defined) with its
package path (empty for a predeclared type), name, kind and zero value, or an unnamed
pointer, slice or map type. -/
inductive Ty where
  | named (pkgPath name : String) (kind : Kind) (zero : Val)
  | ptr (elem : Ty)
  | slice (elem : Ty)
  | map (key elem : Ty)
deriving DecidableEq, Repr

/-- The method `Type.Name`: empty for an unnamed type. -/
def Ty.Name : Ty → String
  | .named _ name _ _ => name
  | _ => ""

/-- The method `Type.PkgPath`: empty for a predeclared and for an unnamed type. -/
def Ty.PkgPath : Ty → String
  | .named pkgPath _ _ _ => pkgPath
  | _ => ""

/-- The method `Type.Kind`. -/
def Ty.Kind : Ty → Kind
  | .named _ _ kind _ => kind
  | .ptr _ => .Ptr
  | .slice _ => .Slice
  | .map _ _ => .Map

/-- The method `Type.Elem`; `none` is its panic on a type without element type. -/
def Ty.Elem : Ty → Option Ty
  | .named _ _ _ _ => none
  | .ptr elem => some elem
  | .slice elem => some elem
  | .map _ elem => some elem

/-- The zero value of a type, what `reflect.New(t)` points to. -/
def Ty.zero : Ty → Val
  | .named _ _ _ zero => zero
  | _ => .nil

/-- The type `error`, `reflect.TypeOf((*error)(nil)).Elem()`. -/
def errorType : Ty := .named "" "error" .Interface .nil

/-- The range table `unicode.Upper` of the upper-case letters (the category Lu, as of
Unicode 14.0.0; the toolchain fixes the version of the table): each entry is a range from
its first to its second component in steps of its third. What is proved of `Register` holds
for every such table; the examples use the letters A to Z, a to z and the umlauts. -/
def unicodeUpper : List (Nat × Nat × Nat) :=
  [ (0x0041, 0x005A, 1), (0x00C0, 0x00D6, 1), (0x00D8, 0x00DE, 1), (0x0100, 0x0136, 2),
    (0x0139, 0x0147, 2), (0x014A, 0x0178, 2), (0x0179, 0x017D, 2), (0x0181, 0x0182, 1),
    (0x0184, 0x0184, 1), (0x0186, 0x0187, 1), (0x0189, 0x018B, 1), (0x018E, 0x0191, 1),
    (0x0193, 0x0194, 1), (0x0196, 0x0198, 1), (0x019C, 0x019D, 1), (0x019F, 0x01A0, 1),
    (0x01A2, 0x01A6, 2), (0x01A7, 0x01A7, 1), (0x01A9, 0x01A9, 1), (0x01AC, 0x01AC, 1),
    (0x01AE, 0x01AF, 1), (0x01B1, 0x01B3, 1), (0x01B5, 0x01B5, 1), (0x01B7, 0x01B8, 1),
    (0x01BC, 0x01BC, 1), (0x01C4, 0x01CD, 3), (0x01CF, 0x01DB, 2), (0x01DE, 0x01EE, 2),
    (0x01F1, 0x01F1, 1), (0x01F4, 0x01F4, 1), (0x01F6, 0x01F8, 1), (0x01FA, 0x0232, 2),
    (0x023A, 0x023B, 1), (0x023D, 0x023E, 1), (0x0241, 0x0241, 1), (0x0243, 0x0246, 1),
    (0x0248, 0x024E, 2), (0x0370, 0x0370, 1), (0x0372, 0x0372, 1), (0x0376, 0x0376, 1),
    (0x037F, 0x037F, 1), (0x0386, 0x0386, 1), (0x0388, 0x038A, 1), (0x038C, 0x038C, 1),
    (0x038E, 0x038F, 1), (0x0391, 0x03A1, 1), (0x03A3, 0x03AB, 1), (0x03CF, 0x03CF, 1),
    (0x03D2, 0x03D4, 1), (0x03D8, 0x03EE, 2), (0x03F4, 0x03F4, 1), (0x03F7, 0x03F7, 1),
    (0x03F9, 0x03FA, 1), (0x03FD, 0x042F, 1), (0x0460, 0x0480, 2), (0x048A, 0x04C0, 2),
    (0x04C1, 0x04CD, 2), (0x04D0, 0x052E, 2), (0x0531, 0x0556, 1), (0x10A0, 0x10C5, 1),
    (0x10C7, 0x10C7, 1), (0x10CD, 0x10CD, 1), (0x13A0, 0x13F5, 1), (0x1C90, 0x1CBA, 1),
    (0x1CBD, 0x1CBF, 1), (0x1E00, 0x1E94, 2), (0x1E9E, 0x1EFE, 2), (0x1F08, 0x1F0F, 1),
    (0x1F18, 0x1F1D, 1), (0x1F28, 0x1F2F, 1), (0x1F38, 0x1F3F, 1), (0x1F48, 0x1F4D, 1),
    (0x1F59, 0x1F5F, 2), (0x1F68, 0x1F6F, 1), (0x1FB8, 0x1FBB, 1), (0x1FC8, 0x1FCB, 1),
    (0x1FD8, 0x1FDB, 1), (0x1FE8, 0x1FEC, 1), (0x1FF8, 0x1FFB, 1), (0x2102, 0x2102, 1),
    (0x2107, 0x2107, 1), (0x210B, 0x210D, 1), (0x2110, 0x2112, 1), (0x2115, 0x2115, 1),
    (0x2119, 0x211D, 1), (0x2124, 0x212A, 2), (0x212B, 0x212D, 1), (0x2130, 0x2133, 1),
    (0x213E, 0x213F, 1), (0x2145, 0x2145, 1), (0x2183, 0x2183, 1), (0x2C00, 0x2C2F, 1),
    (0x2C60, 0x2C60, 1), (0x2C62, 0x2C64, 1), (0x2C67, 0x2C6D, 2), (0x2C6E, 0x2C70, 1),
    (0x2C72, 0x2C72, 1), (0x2C75, 0x2C75, 1), (0x2C7E, 0x2C80, 1), (0x2C82, 0x2CE2, 2),
    (0x2CEB, 0x2CEB, 1), (0x2CED, 0x2CED, 1), (0x2CF2, 0x2CF2, 1), (0xA640, 0xA66C, 2),
    (0xA680, 0xA69A, 2), (0xA722, 0xA72E, 2), (0xA732, 0xA76E, 2), (0xA779, 0xA77D, 2),
    (0xA77E, 0xA786, 2), (0xA78B, 0xA78B, 1), (0xA78D, 0xA78D, 1), (0xA790, 0xA790, 1),
    (0xA792, 0xA792, 1), (0xA796, 0xA7AA, 2), (0xA7AB, 0xA7AE, 1), (0xA7B0, 0xA7B4, 1),
    (0xA7B6, 0xA7C4, 2), (0xA7C5, 0xA7C7, 1), (0xA7C9, 0xA7C9, 1), (0xA7D0, 0xA7D0, 1),
    (0xA7D6, 0xA7D6, 1), (0xA7D8, 0xA7D8, 1), (0xA7F5, 0xA7F5, 1), (0xFF21, 0xFF3A, 1),
    (0x10400, 0x10427, 1), (0x104B0, 0x104D3, 1), (0x10570, 0x1057A, 1), (0x1057C, 0x1058A, 1),
    (0x1058C, 0x10592, 1), (0x10594, 0x10595, 1), (0x10C80, 0x10CB2, 1), (0x118A0, 0x118BF, 1),
    (0x16E40, 0x16E5F, 1), (0x1D400, 0x1D419, 1), (0x1D434, 0x1D44D, 1), (0x1D468, 0x1D481, 1),
    (0x1D49C, 0x1D49C, 1), (0x1D49E, 0x1D49F, 1), (0x1D4A2, 0x1D4A2, 1), (0x1D4A5, 0x1D4A6, 1),
    (0x1D4A9, 0x1D4AC, 1), (0x1D4AE, 0x1D4B5, 1), (0x1D4D0, 0x1D4E9, 1), (0x1D504, 0x1D505, 1),
    (0x1D507, 0x1D50A, 1), (0x1D50D, 0x1D514, 1), (0x1D516, 0x1D51C, 1), (0x1D538, 0x1D539, 1),
    (0x1D53B, 0x1D53E, 1), (0x1D540, 0x1D544, 1), (0x1D546, 0x1D546, 1), (0x1D54A, 0x1D550, 1),
    (0x1D56C, 0x1D585, 1), (0x1D5A0, 0x1D5B9, 1), (0x1D5D4, 0x1D5ED, 1), (0x1D608, 0x1D621, 1),
    (0x1D63C, 0x1D655, 1), (0x1D670, 0x1D689, 1), (0x1D6A8, 0x1D6C0, 1), (0x1D6E2, 0x1D6FA, 1),
    (0x1D71C, 0x1D734, 1), (0x1D756, 0x1D76E, 1), (0x1D790, 0x1D7A8, 1), (0x1D7CA, 0x1D7CA, 1),
    (0x1E900, 0x1E921, 1) ]

/-- The function `unicode.IsUpper`: the code point lies in a range of `unicode.Upper`. -/
def unicodeIsUpper (c : Char) : Bool :=
  unicodeUpper.any (fun r =>
    decide (r.1 ≤ c.toNat) && decide (c.toNat ≤ r.2.1) && (c.toNat - r.1) % r.2.2 == 0)

/-- The function `ast.IsExported`: the first character of the name is an upper-case letter
(`unicode.IsUpper` of the first rune; false on the empty name). -/
def IsExported (name : String) : Bool :=
  match name.data with
  | [] => false
  | c :: _ => unicodeIsUpper c

/-- The function `isExportedOrBuiltinType`. -/
def isExportedOrBuiltinType (t : Ty) : Bool :=
  IsExported t.Name || t.PkgPath == ""

/-- A method as `reflect.Method` shows it: its name, the types of its inputs (the receiver
first) and of its outputs, and its function `Func`, which maps the receiver, the argument
and the value the reply points to, to the value the reply points to afterwards and the
error returned. -/
structure Method where
  Name : String
  In : List Ty
  Out : List Ty
  Func : Val → Val → Val → Val × Option String

/-- What `Register` is handed as `rcvr interface{}`: the dynamic type, the value (behind the
pointer, if it is one) and the methods in the method set of the type, exported or not. -/
structure Receiver where
  typ : Ty
  value : Val
  methods : List Method

/-- The struct `methodType`. -/
structure methodType where
  method : Method
  ArgType : Ty
  ReplyType : Ty
  numCalls : Nat

/-- The method `methodType.NumCalls`. -/
def methodType.NumCalls (m : methodType) : Nat := m.numCalls

/-- The method `methodType.newArgv`: the value the argument (or the pointer argument)
refers to, a zero value. -/
def methodType.newArgv (m : methodType) : Val :=
  if m.ArgType.Kind = .Ptr then
    match m.ArgType.Elem with
    | some elem => elem.zero
    | none => .nil
  else m.ArgType.zero

/-- The method `methodType.newReply`: the value the reply pointer refers to; `none` is the
panic of `ReplyType.Elem()` on a type that has no element type. -/
def methodType.newReply (m : methodType) : Option Val :=
  match m.ReplyType.Elem with
  | none => none
  | some elem =>
    match elem.Kind with
    | .Map => some .emptyMap
    | .Slice => some .emptySlice
    | _ => some elem.zero

/-- The struct `service`; a `*methodType` is named by the key under which it is stored. -/
structure service where
  name : String
  typ : Ty
  rcvr : Receiver
  method : GoMap String methodType

/-- The methods `s.typ.Method(i)` for `i < s.typ.NumMethod()`: `reflect` lists the exported
methods only. -/
def reflectMethods (rcvr : Receiver) : List Method :=
  rcvr.methods.filter (fun m => IsExported m.Name)

/-- The body of the loop of `registerMethods` for one method. -/
def registerMethod (table : GoMap String methodType) (method : Method) : GoMap String methodType :=
  if method.In.length ≠ 3 || method.Out.length ≠ 1 then table
  else if method.Out.head? ≠ some errorType then table
  else
    match method.In with
    | [_, argType, replyType] =>
      if !isExportedOrBuiltinType argType || !isExportedOrBuiltinType replyType then table
      else table.set method.Name
        { method := method, ArgType := argType, ReplyType := replyType, numCalls := 0 }
    | _ => table

/-- The test `registerMethods` applies to a method: three inputs (the receiver, the
argument, the reply), one output of type `error`, argument and reply types exported or
builtin. -/
def Method.qualifies (m : Method) : Bool :=
  m.In.length == 3 && m.Out.length == 1 && m.Out.head? == some errorType &&
    match m.In with
    | [_, argType, replyType] => isExportedOrBuiltinType argType && isExportedOrBuiltinType replyType
    | _ => false

/-- The method `service.registerMethods`. -/
def service.registerMethods (s : service) : service :=
  { s with method := (reflectMethods s.rcvr).foldl registerMethod [] }

/-- The name `reflect.Indirect(s.rcvr).Type().Name()`. -/
def indirectName (t : Ty) : String :=
  match t with
  | .ptr elem => elem.Name
  | _ => t.Name

/-- The function `newService`; `none` is `log.Fatalf` (the process exits) on a name that is
not exported. -/
def newService (rcvr : Receiver) : Option service :=
  let s : service := { name := indirectName rcvr.typ, typ := rcvr.typ, rcvr := rcvr, method := [] }
  if !IsExported s.name then none
  else some s.registerMethods

/-- The method `service.call` on the method descriptor stored under `mname`: the service
with the call counted, the value the reply points to after the call, and the error
returned. Without a descriptor under `mname` there is no such call. -/
def service.call (s : service) (mname : String) (argv replyv : Val) :
    Option (service × Val × Option String) :=
  match s.method.get mname with
  | none => none
  | some m =>
    let m1 := { m with numCalls := incU64 m.numCalls }
    match m.method.Func s.rcvr.value argv replyv with
    | (reply, err) => some ({ s with method := s.method.set mname m1 }, reply, err)

/-! ## The test receiver (service/service_test.go) -/

/-- The type `int`. -/
def tyInt : Ty := .named "" "int" .Int (.int 0)

/-- The type `Args` of the tests. -/
def tyArgs : Ty := .named "krpc/service" "Args" .Struct (.args 0 0)

/-- The type `Foo` of the tests. -/
def tyFoo : Ty := .named "krpc/service" "Foo" .Int (.int 0)

/-- The body shared by `Foo.Sum` and `Foo.sum`: `*reply = args.Num1 + args.Num2`. -/
def sumFunc (_rcvr argv replyv : Val) : Val × Option String :=
  match argv with
  | .args num1 num2 => (.int (addInt64 num1 num2), none)
  | _ => (replyv, none)

/-- The receiver `&foo` of the tests: the methods `Sum` (exported) and `sum`. -/
def fooReceiver : Receiver :=
  { typ := .ptr tyFoo
    value := .int 0
    methods :=
      [ { Name := "Sum", In := [.ptr tyFoo, tyArgs, .ptr tyInt], Out := [errorType], Func := sumFunc },
        { Name := "sum", In := [.ptr tyFoo, tyArgs, .ptr tyInt], Out := [errorType], Func := sumFunc } ] }

/-- A receiver of type `*Foo` with, besides `Sum`, an exported method
`Bad(args Args, reply int) error` whose reply parameter is not a pointer. -/
def badReceiver : Receiver :=
  { typ := .ptr tyFoo
    value := .int 0
    methods :=
      [ { Name := "Bad", In := [.ptr tyFoo, tyArgs, tyInt], Out := [errorType], Func := sumFunc },
        { Name := "Sum", In := [.ptr tyFoo, tyArgs, .ptr tyInt], Out := [errorType], Func := sumFunc } ] }

/-- A receiver whose type `foo` is not exported. -/
def unexportedReceiver : Receiver :=
  { typ := .ptr (.named "krpc/service" "foo" .Int (.int 0))
    value := .int 0
    methods :=
      [ { Name := "Sum", In := [.ptr (.named "krpc/service" "foo" .Int (.int 0)), tyArgs, .ptr tyInt],
          Out := [errorType], Func := sumFunc } ] }

/-- A receiver whose type `Ärger` starts with an upper-case letter outside ASCII. -/
def umlautReceiver : Receiver :=
  { typ := .ptr (.named "krpc/service" "Ärger" .Int (.int 0))
    value := .int 0
    methods :=
      [ { Name := "Sum", In := [.ptr (.named "krpc/service" "Ärger" .Int (.int 0)), tyArgs, .ptr tyInt],
          Out := [errorType], Func := sumFunc } ] }

/-- The method `Foo.Sum` as `reflect` shows it. -/
def sumMethod : Method :=
  { Name := "Sum", In := [.ptr tyFoo, tyArgs, .ptr tyInt], Out := [errorType], Func := sumFunc }

/-- The service of `Foo` with the counter of `Sum` at `n`. -/
def fooServiceAt (n : Nat) : service :=
  { name := "Foo"
    typ := .ptr tyFoo
    rcvr := fooReceiver
    method := [("Sum", { method := sumMethod, ArgType := tyArgs, ReplyType := .ptr tyInt, numCalls := n })] }

/-- The service of `Foo` with the counter of `Sum` at the largest `uint64`. -/
def fooAtMax : service := fooServiceAt (U64 - 1)

/-! ## Options and codec (conf/util.go, codec/codec.go) -/

/-- The constant `conf.MagicNumber`. -/
def conf.MagicNumber : Int := 0x3bef5b

/-- The constants `codec.GobType` and `codec.JsonType`. -/
def codec.GobType : String := "application/gob"

/-- The constant `codec.JsonType`: declared, no codec is registered under it. -/
def codec.JsonType : String := "application/json"

/-- The struct `conf.Option`; the durations are in nanoseconds. -/
structure conf.Option where
  MagicNumber : Int
  CodeType : String
  ConnectionTimeout : Nat
  HandleTimeout : Nat
deriving DecidableEq, Repr

/-- The variable `conf.DefaultOption`. -/
def conf.DefaultOption : conf.Option :=
  { MagicNumber := conf.MagicNumber, CodeType := codec.GobType,
    ConnectionTimeout := 10 * 1000000000, HandleTimeout := 0 }

/-- One value on the wire of a connection to the server: a header, or a body together with
what decoding it into the argument of the request yields. -/
inductive Item where
  | header (h : Header)
  | body (r : Except String Val)

/-- A codec on the server side of a connection: the values still to be read, and the frames
handed to `Write`, in order. -/
structure Conn where
  input : List Item
  output : List (Header × Val)

/-- The method `ReadHeader` of the codec: it consumes the next value; a value that is not a
header does not decode into one. -/
def Conn.ReadHeader (c : Conn) : Conn × Except String Header :=
  match c.input with
  | [] => (c, .error EOF)
  | .header h :: rest => ({ c with input := rest }, .ok h)
  | .body _ :: rest => ({ c with input := rest }, .error "gob: type mismatch")

/-- The method `ReadBody` of the codec: it consumes the next value. -/
def Conn.ReadBody (c : Conn) : Conn × Except String Val :=
  match c.input with
  | [] => (c, .error EOF)
  | .body r :: rest => ({ c with input := rest }, r)
  | .header _ :: rest => ({ c with input := rest }, .error "gob: type mismatch")

/-- The method `Write` of the codec. -/
def Conn.Write (c : Conn) (h : Header) (body : Val) : Conn :=
  { c with output := c.output ++ [(h, body)] }

/-! ## The server (service/server.go) -/

/-- The struct `Server`. -/
structure Server where
  serviceMap : GoMap String service
  opt : Option conf.Option

/-- The function `NewServer`. -/
def NewServer : Server := { serviceMap := [], opt := none }

/-- The method `Server.Register`: `none` is the exit of the process in `newService`;
otherwise the server and the error returned. `LoadOrStore` stores the service unless the
name is taken. -/
def Server.Register (s : Server) (rcvr : Receiver) : Option (Server × Option String) :=
  match newService rcvr with
  | none => none
  | some svc =>
    match s.serviceMap.get svc.name with
    | some _ => some (s, some ("rpc: service already defined: " ++ svc.name))
    | none => some ({ s with serviceMap := s.serviceMap.set svc.name svc }, none)

/-- The loop of `strings.LastIndex` for a one-character pattern: the index of the last
occurrence seen so far. -/
def lastIndexFrom (c : Char) : List Char → Nat → Int → Int
  | [], _, best => best
  | x :: xs, i, best => lastIndexFrom c xs (i + 1) (if x = c then (i : Int) else best)

/-- The function `strings.LastIndex(s, ".")`, counted in characters: -1 without a dot. -/
def LastIndex (s : String) (c : Char) : Int := lastIndexFrom c s.data 0 (-1)

/-- The method `Server.findService`: the service, the method descriptor and the error. -/
def Server.findService (s : Server) (serviceMethod : String) :
    Option service × Option methodType × Option String :=
  let dot := LastIndex serviceMethod '.'
  if dot < 0 then
    (none, none, some ("rpc server: service/method request ill-format: " ++ serviceMethod))
  else
    let serviceName := String.mk (serviceMethod.data.take dot.toNat)
    let methodName := String.mk (serviceMethod.data.drop (dot.toNat + 1))
    match s.serviceMap.get serviceName with
    | none => (none, none, some ("rpc server: can't find service " ++ serviceName))
    | some svc =>
      match svc.method.get methodName with
      | none => (some svc, none, some ("rpc server: can't find method " ++ methodName))
      | some mtype => (some svc, some mtype, none)

/-- The struct `request`. The pointers `svc` and `mtype` are the descriptors found; they
are named by `svc.name` and `mtype.method.Name`, the keys under which they are stored. -/
structure request where
  h : Header
  argv : Val
  replyv : Val
  mtype : Option methodType
  svc : Option service

/-- The method `Server.readRequestHeader`. -/
def Server.readRequestHeader (c : Conn) : Conn × Except String Header := c.ReadHeader

/-- The method `Server.readRequest`: the codec, the request (`none` for nil) and the error;
the outer `none` is a panic: that of `newReply` on a reply type without element type, or a
nil method descriptor without error (which `findService` never returns). -/
def Server.readRequest (s : Server) (c : Conn) : Option (Conn × Option request × Option String) :=
  match Server.readRequestHeader c with
  | (c1, .error err) => some (c1, none, some err)
  | (c1, .ok h) =>
    match s.findService h.ServiceMethod with
    | (svc, mtype, some err) =>
      some (c1, some { h := h, argv := .nil, replyv := .nil, mtype := mtype, svc := svc }, some err)
    | (_, none, none) => none
    | (svc, some m, none) =>
      match m.newReply with
      | none => none
      | some replyv =>
        match c1.ReadBody with
        | (c2, .ok v) =>
          some (c2, some { h := h, argv := v, replyv := replyv, mtype := some m, svc := svc }, none)
        | (c2, .error _) =>
          some (c2, some { h := h, argv := m.newArgv, replyv := replyv, mtype := some m, svc := svc },
            none)

/-- The method `Server.sendResponse`. -/
def Server.sendResponse (c : Conn) (h : Header) (body : Val) : Conn := c.Write h body

/-- The message of the timeout response. -/
def timeoutMessage : String := "rpc server: request handle timeout "

/-- The frame sent by the timer branch of `handleRequest` for a request with header `h`. -/
def timeoutFrame (h : Header) : Header × Val :=
  ({ h with Error := timeoutMessage }, .invalidRequest)

/-- The frame sent by the handler goroutine for a request with header `h`, `result` being
the reply and the error of `svc.call`. -/
def handlerFrame (h : Header) (result : Val × Option String) : Header × Val :=
  match result.2 with
  | some err => ({ h with Error := err }, .invalidRequest)
  | none => (h, result.1)

/-! ## handleRequest: the handler goroutine and the goroutine that waits for it -/

/-- Where the goroutine started by `handleRequest` stands: in `svc.call`; at the send
`callCh <- struct{}{}` with the result of the call; past the send, before `sendResponse`;
finished. -/
inductive HandlerPc where
  | calling
  | atSend
  | responding
  | finished
deriving DecidableEq, Repr

/-- Where `handleRequest` itself stands: waiting (at `<-callCh` or in the `select`),
returned through the timer branch, returned through the branch `<-callCh`. -/
inductive WaiterPc where
  | waiting
  | returnedTimeout
  | returnedCall
deriving DecidableEq, Repr

/-- The state of one `handleRequest`: the two goroutines, the header `req.h` they share and
the frames handed to `sendResponse`. -/
structure HState where
  handler : HandlerPc
  waiter : WaiterPc
  h : Header
  out : List (Header × Val)
deriving DecidableEq, Repr

/-- The steps of the two goroutines: `svc.call` returns; the send on `callCh` meets the
receive; the timer of `time.After(timeout)` is taken by the `select`; the handler goroutine
sends its response. -/
inductive HEvent where
  | callReturns
  | rendezvous
  | timer
  | respond
deriving DecidableEq, Repr

/-- One step of `handleRequest` with handle timeout `timeout`, `result` being the reply and
the error of `svc.call`. A step that is not enabled leaves the state as it is: the channel
`callCh` is unbuffered, so the handler goroutine passes its send only together with the
receive in `handleRequest`; the timer branch exists only for a non-zero timeout. -/
def HState.step (timeout : Nat) (result : Val × Option String) (s : HState) : HEvent → HState
  | .callReturns =>
    match s.handler with
    | .calling => { s with handler := .atSend }
    | _ => s
  | .rendezvous =>
    match s.handler, s.waiter with
    | .atSend, .waiting => { s with handler := .responding, waiter := .returnedCall }
    | _, _ => s
  | .timer =>
    match s.waiter with
    | .waiting =>
      if timeout = 0 then s
      else
        { s with
          waiter := .returnedTimeout
          h := { s.h with Error := timeoutMessage }
          out := s.out ++ [({ s.h with Error := timeoutMessage }, .invalidRequest)] }
    | _ => s
  | .respond =>
    match s.handler with
    | .responding =>
      match result.2 with
      | some err =>
        { s with
          handler := .finished
          h := { s.h with Error := err }
          out := s.out ++ [({ s.h with Error := err }, .invalidRequest)] }
      | none => { s with handler := .finished, out := s.out ++ [(s.h, result.1)] }
    | _ => s

/-- The state in which `handleRequest` starts its goroutine. -/
def HState.init (h : Header) : HState :=
  { handler := .calling, waiter := .waiting, h := h, out := [] }

/-- The state after a sequence of steps. -/
def HState.run (timeout : Nat) (result : Val × Option String) (s : HState) (evs : List HEvent) :
    HState :=
  evs.foldl (HState.step timeout result) s

/-- The invariant of one `handleRequest` on a request with header `h0`: while
`handleRequest` waits nothing is sent; after the timer branch the timeout frame is the one
frame sent and the handler goroutine is not past its send; after the branch `<-callCh` the
handler goroutine is about to send, or has sent its frame and nothing else was sent. -/
def HState.Inv (timeout : Nat) (result : Val × Option String) (h0 : Header) (s : HState) : Prop :=
  (s.waiter = .waiting → s.out = [] ∧ s.h = h0 ∧ (s.handler = .calling ∨ s.handler = .atSend)) ∧
  (s.waiter = .returnedTimeout →
    timeout ≠ 0 ∧ s.out = [timeoutFrame h0] ∧ (s.handler = .calling ∨ s.handler = .atSend)) ∧
  (s.waiter = .returnedCall →
    (s.handler = .responding ∧ s.out = [] ∧ s.h = h0) ∨
    (s.handler = .finished ∧ s.out = [handlerFrame h0 result]))

/-- The call `req.svc.call(req.mtype, req.argv, req.replyv)` on the descriptors the request
points to: the server with the call counted, the reply and the error. -/
def Server.callRequest (s : Server) (req : request) : Option (Server × Val × Option String) :=
  match req.svc, req.mtype with
  | some svc, some mtype =>
    match s.serviceMap.get svc.name with
    | none => none
    | some cur =>
      match cur.call mtype.method.Name req.argv req.replyv with
      | none => none
      | some (cur1, reply, err) =>
        some ({ s with serviceMap := s.serviceMap.set svc.name cur1 }, reply, err)
  | _, _ => none

/-- The method `Server.handleRequest` run to the end: the handler is called, and the frames
sent are those of the schedule in which the timer branch is taken first (`timerFirst`, with
a non-zero timeout) or of the schedule in which the handler's send is received. `none` is
a nil dereference. -/
def Server.handleRequest (s : Server) (c : Conn) (req : request) (timeout : Nat) (timerFirst : Bool) :
    Option (Server × Conn) :=
  match s.callRequest req with
  | none => none
  | some (s1, reply, err) =>
    let schedule : List HEvent :=
      if timerFirst then [.timer, .callReturns, .rendezvous, .respond]
      else [.callReturns, .rendezvous, .respond]
    some (s1, { c with output := c.output ++
      (HState.run timeout (reply, err) (HState.init req.h) schedule).out })

/-- The loop of `Server.serveCodec` followed by `wg.Wait()`, in the schedule in which every
goroutine `go s.handleRequest(...)` runs to its end before the loop reads the next request;
`timerFirst` tells for which requests the timer branch is taken. The code lets the handler
goroutines run beside the loop, so in other schedules the frame of a handled request is
written later, after frames of requests read after it: the order of the frames of different
requests in `output` is that of this schedule only. The loop ends when a header cannot be
read; `none` is a panic. -/
def Server.serveLoop (timerFirst : Header → Bool) : Nat → Server → Conn → Option (Server × Conn)
  | 0, s, c => some (s, c)
  | fuel + 1, s, c =>
    match s.readRequest c with
    | none => none
    | some (c1, none, some _) => some (s, c1)
    | some (c1, some req, some err) =>
      Server.serveLoop timerFirst fuel s
        (Server.sendResponse c1 { req.h with Error := err } .invalidRequest)
    | some (c1, some req, none) =>
      match s.opt with
      | none => none
      | some opt =>
        match s.handleRequest c1 req opt.HandleTimeout (timerFirst req.h) with
        | none => none
        | some (s2, c2) => Server.serveLoop timerFirst fuel s2 c2
    | some (_, none, none) => none

/-- The method `Server.serveCodec`: every iteration of the loop consumes a value of the
input or ends the loop, so one iteration more than there are values is enough. -/
def Server.serveCodec (timerFirst : Header → Bool) (s : Server) (c : Conn) : Option (Server × Conn) :=
  Server.serveLoop timerFirst (c.input.length + 1) s c

/-- The server of the tests: `Foo` registered on a new server, the options of a connection
with the default options stored. -/
def fooServer : Server :=
  match NewServer.Register fooReceiver with
  | some (s, _) => { s with opt := some conf.DefaultOption }
  | none => NewServer

/-- A connection on which one request for `Foo.Sum` with sequence number 1 arrives whose
body does not decode into `Args` (the client passed a string as argument). -/
def badBodyConn : Conn :=
  { input :=
      [ .header { ServiceMethod := "Foo.Sum", Seq := 1, Error := "" },
        .body (.error "gob: decoding into local type *service.Args, received remote type string") ]
    output := [] }

/-- The responses to `fiveCalls` arriving in the given order of the calls: the response to
call `i` has sequence number `i + 1` and carries `i * i + i`. -/
def responsesInOrder (order : List Nat) : List Frame :=
  order.map (fun i => okFrame (i + 1) (.int (i * i + i)))

/-! ## The handshake (service/server.go, codec/codec.go) -/

/-- A connection as `ServeConn` gets it: what `json.NewDecoder(conn).Decode(&opt)` yields on
its first message; the values the codec made afterwards finds on the connection; and whether
`Close` was called. The JSON decoder reads ahead into a buffer of its own, so what the peer
has sent together with the option message may be lost to the codec: `codec` holds the values
that reach the codec, not all that the peer sent. -/
structure NetConn where
  handshake : Except String conf.Option
  codec : Conn
  closed : Bool

/-- The type `codec.NewCodecFunc`. -/
abbrev NewCodecFunc := NetConn → Conn

/-- The function `codec.NewGobCodec`: a gob decoder and a buffered gob encoder on the
connection, here the values that the decoder will find and the frames written. -/
def NewGobCodec (conn : NetConn) : Conn := conn.codec

/-- The variable `codec.NewCodecFuncMap` as `init` leaves it: `GobType` is its one key. -/
def NewCodecFuncMap : GoMap String NewCodecFunc :=
  GoMap.set [] codec.GobType NewGobCodec

/-- The method `Server.ServeConn`; the deferred `conn.Close()` runs on every return. `none`
is a panic in `serveCodec`. -/
def Server.ServeConn (timerFirst : Header → Bool) (s : Server) (conn : NetConn) :
    Option (Server × NetConn) :=
  match conn.handshake with
  | .error _ => some (s, { conn with closed := true })
  | .ok opt =>
    if opt.MagicNumber ≠ conf.MagicNumber then some (s, { conn with closed := true })
    else
      match NewCodecFuncMap.get opt.CodeType with
      | none => some (s, { conn with closed := true })
      | some newCodecF =>
        match Server.serveCodec timerFirst { s with opt := some opt } (newCodecF conn) with
        | none => none
        | some (s1, c1) => some (s1, { conn with codec := c1, closed := true })

/-- A connection whose handshake names the codec `application/json`, followed by a request
for `Foo.Sum`. -/
def jsonConn : NetConn :=
  { handshake := .ok { MagicNumber := conf.MagicNumber, CodeType := codec.JsonType,
                       ConnectionTimeout := 0, HandleTimeout := 0 }
    codec :=
      { input := [ .header { ServiceMethod := "Foo.Sum", Seq := 1, Error := "" },
                   .body (.ok (.args 2 3)) ]
        output := [] }
    closed := false }

/-- The connection `jsonConn` with the default options as handshake. -/
def gobConn : NetConn := { jsonConn with handshake := .ok conf.DefaultOption }

/-- A connection on which two requests arrive: `Bar.Sum` (no such service) with sequence
number 1 and `Foo.Sum` on `Args{2, 3}` with sequence number 2, each a header followed by its
body. -/
def twoRequests : Conn :=
  { input :=
      [ .header { ServiceMethod := "Bar.Sum", Seq := 1, Error := "" }, .body (.ok (.args 1 1)),
        .header { ServiceMethod := "Foo.Sum", Seq := 2, Error := "" }, .body (.ok (.args 2 3)) ]
    output := [] }

/-! ## Lemmas on Go maps -/

theorem GoMap.delete_cons {κ β : Type} [DecidableEq κ] (k : κ) (v : β) (m : GoMap κ β) (s : κ) :
    GoMap.delete ((k, v) :: m) s = if k = s then GoMap.delete m s else (k, v) :: GoMap.delete m s := by
  by_cases hk : k = s <;> simp [GoMap.delete, List.filter_cons, hk]

theorem GoMap.get_delete_self {κ β : Type} [DecidableEq κ] (m : GoMap κ β) (s : κ) :
    (GoMap.delete m s).get s = none := by
  induction m with
  | nil => rfl
  | cons e m ih =>
    obtain ⟨k, v⟩ := e
    rw [GoMap.delete_cons]
    by_cases hk : k = s
    · rw [if_pos hk]; exact ih
    · rw [if_neg hk, GoMap.get, if_neg hk]; exact ih

theorem GoMap.get_delete_ne {κ β : Type} [DecidableEq κ] (m : GoMap κ β) (s k : κ) (h : k ≠ s) :
    (GoMap.delete m s).get k = m.get k := by
  induction m with
  | nil => rfl
  | cons e m ih =>
    obtain ⟨k0, v⟩ := e
    rw [GoMap.delete_cons]
    by_cases hk : k0 = s
    · have hne : ¬ k0 = k := fun e => h (e ▸ hk)
      rw [if_pos hk, GoMap.get, if_neg hne]; exact ih
    · rw [if_neg hk]
      by_cases hk2 : k0 = k
      · rw [GoMap.get, if_pos hk2, GoMap.get, if_pos hk2]
      · rw [GoMap.get, if_neg hk2, GoMap.get, if_neg hk2]; exact ih

theorem GoMap.get_set_self {κ β : Type} [DecidableEq κ] (m : GoMap κ β) (s : κ) (v : β) :
    (GoMap.set m s v).get s = some v := by
  simp [GoMap.set, GoMap.get]

theorem GoMap.get_set_ne {κ β : Type} [DecidableEq κ] (m : GoMap κ β) (s k : κ) (v : β) (h : k ≠ s) :
    (GoMap.set m s v).get k = m.get k := by
  rw [GoMap.set, GoMap.get, if_neg (Ne.symm h)]
  exact GoMap.get_delete_ne m s k h

theorem GoMap.mem_of_get {κ β : Type} [DecidableEq κ] (m : GoMap κ β) (k : κ) (v : β)
    (h : m.get k = some v) : (k, v) ∈ m := by
  induction m with
  | nil => simp [GoMap.get] at h
  | cons e m ih =>
    obtain ⟨k0, v0⟩ := e
    by_cases hk : k0 = k
    · simp [GoMap.get, hk] at h
      simp [hk, h]
    · simp [GoMap.get, hk] at h
      exact List.mem_cons_of_mem _ (ih h)

/-! ## Projections of the heap operations -/

@[simp] theorem setCall_calls_self (w : World) (p : Ptr) (c : Call) : (w.setCall p c).calls p = c := by
  simp [World.setCall]

@[simp] theorem setCall_calls_ne (w : World) (p q : Ptr) (c : Call) (h : q ≠ p) :
    (w.setCall p c).calls q = w.calls q := by
  simp [World.setCall, h]

@[simp] theorem setCall_pending (w : World) (p : Ptr) (c : Call) : (w.setCall p c).pending = w.pending := rfl
@[simp] theorem setCall_seq (w : World) (p : Ptr) (c : Call) : (w.setCall p c).seq = w.seq := rfl
@[simp] theorem setCall_closing (w : World) (p : Ptr) (c : Call) : (w.setCall p c).closing = w.closing := rfl
@[simp] theorem setCall_shutdown (w : World) (p : Ptr) (c : Call) : (w.setCall p c).shutdown = w.shutdown := rfl
@[simp] theorem setCall_chans (w : World) (p : Ptr) (c : Call) : (w.setCall p c).chans = w.chans := rfl
@[simp] theorem setCall_fired (w : World) (p : Ptr) (c : Call) : (w.setCall p c).fired = w.fired := rfl
@[simp] theorem setCall_blocked (w : World) (p : Ptr) (c : Call) : (w.setCall p c).blocked = w.blocked := rfl
@[simp] theorem setCall_nextCall (w : World) (p : Ptr) (c : Call) : (w.setCall p c).nextCall = w.nextCall := rfl
@[simp] theorem setCall_nextChan (w : World) (p : Ptr) (c : Call) : (w.setCall p c).nextChan = w.nextChan := rfl

@[simp] theorem done_calls (w : World) (p : Ptr) : (Call.done w p).calls = w.calls := by
  simp only [Call.done]; split <;> rfl

@[simp] theorem done_pending (w : World) (p : Ptr) : (Call.done w p).pending = w.pending := by
  simp only [Call.done]; split <;> rfl

@[simp] theorem done_seq (w : World) (p : Ptr) : (Call.done w p).seq = w.seq := by
  simp only [Call.done]; split <;> rfl

@[simp] theorem done_closing (w : World) (p : Ptr) : (Call.done w p).closing = w.closing := by
  simp only [Call.done]; split <;> rfl

@[simp] theorem done_shutdown (w : World) (p : Ptr) : (Call.done w p).shutdown = w.shutdown := by
  simp only [Call.done]; split <;> rfl

@[simp] theorem done_nextCall (w : World) (p : Ptr) : (Call.done w p).nextCall = w.nextCall := by
  simp only [Call.done]; split <;> rfl

@[simp] theorem done_nextChan (w : World) (p : Ptr) : (Call.done w p).nextChan = w.nextChan := by
  simp only [Call.done]; split <;> rfl

@[simp] theorem done_fired (w : World) (p : Ptr) : (Call.done w p).fired = w.fired ++ [p] := by
  simp only [Call.done]; split <;> rfl

theorem done_chans_ne (w : World) (p : Ptr) (ch : ChanId) (h : ch ≠ (w.calls p).Done) :
    (Call.done w p).chans ch = w.chans ch := by
  simp only [Call.done]; split <;> simp [World.setChan, h]

theorem done_chans_cap (w : World) (p : Ptr) (ch : ChanId) :
    ((Call.done w p).chans ch).cap = (w.chans ch).cap := by
  simp only [Call.done]
  by_cases h : ch = (w.calls p).Done
  · split <;> simp [World.setChan, h]
  · split <;> simp [World.setChan, h]

/-- With room in the buffer of its channel, `Call.done` does not wait. -/
theorem done_blocked_of_room (w : World) (p : Ptr)
    (h : (w.chans (w.calls p).Done).buf.length < (w.chans (w.calls p).Done).cap) :
    (Call.done w p).blocked = w.blocked ∧
    (Call.done w p).chans (w.calls p).Done =
      { (w.chans (w.calls p).Done) with buf := (w.chans (w.calls p).Done).buf ++ [p] } := by
  unfold Call.done
  simp [h, World.setChan]

/-- On a full channel `Call.done` waits. -/
theorem done_blocked_of_full (w : World) (p : Ptr)
    (h : ¬ (w.chans (w.calls p).Done).buf.length < (w.chans (w.calls p).Done).cap) :
    (Call.done w p).blocked = w.blocked ++ [p] := by
  unfold Call.done
  simp [h]

theorem emptyString_length : ("" : String).length = 0 := rfl

/-! ## The receive loop -/

/-- The iteration of the receive loop on a header without error whose sequence number is
pending, spelled out. -/
theorem receiveStep_pending_ok (w : World) (h : Header) (body : Except String Val) (c : Ptr)
    (hErr : h.Error = "") (hc : w.pending.get h.Seq = some c) :
    receiveStep w (.ok h) body =
      match body with
      | .ok v =>
        (Call.done (World.setCall { w with pending := w.pending.delete h.Seq } c
          { (w.calls c) with Reply := v }) c, none)
      | .error e =>
        (Call.done (World.setCall { w with pending := w.pending.delete h.Seq } c
          { (w.calls c) with Error := some ("reading body " ++ e) }) c, some e) := by
  simp only [receiveStep, removeCall, hc, hErr, emptyString_length]
  cases body <;> simp

/-- The reply of the call after the iteration of the receive loop on its response. -/
theorem receiveStep_reply (w : World) (h : Header) (c : Ptr) (v : Val)
    (hErr : h.Error = "") (hc : w.pending.get h.Seq = some c) :
    ((receiveStep w (.ok h) (.ok v)).1.calls c).Reply = v := by
  rw [receiveStep_pending_ok w h (.ok v) c hErr hc]
  simp

/-- C1 (demultiplexing). In every client state, on a response header `h` with an empty
`Error` whose `Seq` is the key of the pending call `c`, one iteration of the receive loop
hands the body to `c` and to no other call: when the body decodes to `v` the iteration
leaves no error and `c` differs from before in its `Reply` alone, which is `v`; every other
call object is untouched; `h.Seq` is no longer a key of the pending table and every other
key maps to what it mapped to; the one completion signal sent is that of `c`, on the
channel `c.Done`, and no other channel changes. -/
theorem C1_receive_demultiplexes (w : World) (h : Header) (body : Except String Val) (c : Ptr)
    (hErr : h.Error = "") (hc : w.pending.get h.Seq = some c) :
    (∀ v, body = .ok v →
        (receiveStep w (.ok h) body).2 = none ∧
        (receiveStep w (.ok h) body).1.calls c = { (w.calls c) with Reply := v }) ∧
    (∀ p, p ≠ c → (receiveStep w (.ok h) body).1.calls p = w.calls p) ∧
    (receiveStep w (.ok h) body).1.pending.get h.Seq = none ∧
    (∀ s, s ≠ h.Seq → (receiveStep w (.ok h) body).1.pending.get s = w.pending.get s) ∧
    (receiveStep w (.ok h) body).1.fired = w.fired ++ [c] ∧
    (∀ ch, ch ≠ (w.calls c).Done → (receiveStep w (.ok h) body).1.chans ch = w.chans ch) := by
  rw [receiveStep_pending_ok w h body c hErr hc]
  cases body with
  | ok v =>
    refine ⟨?_, ?_, ?_, ?_, ?_, ?_⟩
    · intro v0 hv
      cases hv
      simp
    · intro p hp
      simp [hp]
    · simp [GoMap.get_delete_self]
    · intro s hs
      simp [GoMap.get_delete_ne _ _ _ hs]
    · simp
    · intro ch hch
      rw [done_chans_ne]
      · rfl
      · simpa using hch
  | error e =>
    refine ⟨?_, ?_, ?_, ?_, ?_, ?_⟩
    · intro v0 hv
      cases hv
    · intro p hp
      simp [hp]
    · simp [GoMap.get_delete_self]
    · intro s hs
      simp [GoMap.get_delete_ne _ _ _ hs]
    · simp
    · intro ch hch
      rw [done_chans_ne]
      · rfl
      · simpa using hch

/-- The instance of C1 on the third of five pending `Foo.Sum` calls: the frame with
sequence number 3 and body 6 reaches the call at address 2 and no other. -/
theorem C1_receive_demultiplexes_witness :
    fiveCalls.pending.get 3 = some 2 ∧
    ((receiveStep fiveCalls (.ok { ServiceMethod := "Foo.Sum", Seq := 3, Error := "" })
        (.ok (.int 6))).1.calls 2).Reply = .int 6 ∧
    (∀ p, p ≠ 2 →
      (receiveStep fiveCalls (.ok { ServiceMethod := "Foo.Sum", Seq := 3, Error := "" })
        (.ok (.int 6))).1.calls p = fiveCalls.calls p) ∧
    (receiveStep fiveCalls (.ok { ServiceMethod := "Foo.Sum", Seq := 3, Error := "" })
        (.ok (.int 6))).1.fired = [2] :=
  have key := C1_receive_demultiplexes fiveCalls { ServiceMethod := "Foo.Sum", Seq := 3, Error := "" }
    (.ok (.int 6)) 2 rfl (by decide)
  ⟨by decide, by rw [(key.1 _ rfl).2], key.2.1, key.2.2.2.2.1⟩

/-- The scenario of `TestServeDay3`: whatever the order of arrival, each of the five calls
ends with the sum of its own arguments as reply, is signalled once, and the pending table
is empty. -/
theorem fiveCalls_replies :
    [0, 1, 2, 3, 4].map (fun p => ((receive fiveCalls fiveResponses).calls p).Reply) =
      [.int 0, .int 2, .int 6, .int 12, .int 20] ∧
    [0, 1, 2, 3, 4].map (fun p => ((receive fiveCalls fiveResponses).calls p).Args) =
      [.args 0 0, .args 1 1, .args 4 2, .args 9 3, .args 16 4] ∧
    (receive fiveCalls fiveResponses).fired = [2, 0, 4, 1, 3] ∧
    (receive fiveCalls fiveResponses).blocked = [] ∧
    (receive fiveCalls fiveResponses).pending = [] := by
  decide

/-! ## Removal from the pending table -/

@[simp] theorem terminateOne_pending (err : String) (w : World) (p : Ptr) :
    (terminateOne err w p).pending = w.pending := by
  simp [terminateOne]

@[simp] theorem terminateOne_shutdown (err : String) (w : World) (p : Ptr) :
    (terminateOne err w p).shutdown = w.shutdown := by
  simp [terminateOne]

@[simp] theorem terminateOne_closing (err : String) (w : World) (p : Ptr) :
    (terminateOne err w p).closing = w.closing := by
  simp [terminateOne]

@[simp] theorem terminateOne_seq (err : String) (w : World) (p : Ptr) :
    (terminateOne err w p).seq = w.seq := by
  simp [terminateOne]

@[simp] theorem terminateOne_fired (err : String) (w : World) (p : Ptr) :
    (terminateOne err w p).fired = w.fired ++ [p] := by
  simp [terminateOne]

theorem terminateOne_calls (err : String) (w : World) (p q : Ptr) :
    (terminateOne err w p).calls q =
      if q = p then { (w.calls p) with Error := some err } else w.calls q := by
  by_cases h : q = p
  · subst h; simp [terminateOne]
  · simp [terminateOne, h]

/-- What the loop of `terminateCalls` leaves alone, and the signals it sends. -/
theorem terminateLoop_frame (err : String) (l : List Ptr) (w : World) :
    (l.foldl (terminateOne err) w).pending = w.pending ∧
    (l.foldl (terminateOne err) w).shutdown = w.shutdown ∧
    (l.foldl (terminateOne err) w).closing = w.closing ∧
    (l.foldl (terminateOne err) w).seq = w.seq ∧
    (l.foldl (terminateOne err) w).fired = w.fired ++ l := by
  induction l generalizing w with
  | nil => simp
  | cons p l ih =>
    obtain ⟨h1, h2, h3, h4, h5⟩ := ih (terminateOne err w p)
    simp only [List.foldl_cons]
    refine ⟨?_, ?_, ?_, ?_, ?_⟩
    · rw [h1]; simp
    · rw [h2]; simp
    · rw [h3]; simp
    · rw [h4]; simp
    · rw [h5]; simp

/-- The call objects after the loop of `terminateCalls`: the calls visited carry the error
and are otherwise as before. -/
theorem terminateLoop_calls (err : String) (l : List Ptr) (w : World) (q : Ptr) :
    (l.foldl (terminateOne err) w).calls q =
      if q ∈ l then { (w.calls q) with Error := some err } else w.calls q := by
  induction l generalizing w with
  | nil => simp
  | cons p l ih =>
    simp only [List.foldl_cons]
    rw [ih, terminateOne_calls]
    by_cases hq : q = p
    · subst hq
      by_cases hl : q ∈ l <;> simp [hl]
    · by_cases hl : q ∈ l <;> simp [hl, hq]

/-- C2, the state that refutes it: after `terminateCalls` on the client of `TestServeDay3`
the call pending under 3 has been completed with the error, and 3 is still a key of the
pending table. -/
theorem C2_terminateCalls_keeps_key :
    fiveCalls.pending.get 3 = some 2 ∧
    2 ∈ (terminateCalls fiveCalls EOF).fired ∧
    ((terminateCalls fiveCalls EOF).calls 2).Error = some EOF ∧
    (terminateCalls fiveCalls EOF).pending.get 3 = some 2 := by
  decide

/-- C2 (removal on completion), as the code has it. For a call `c` pending under `seq`:
an iteration of the receive loop on a header with that sequence number completes `c` and
leaves `seq` out of the pending table; so does `send` after a failed write; cancellation
in `Call` removes `seq` without signalling any call. `terminateCalls` leaves the pending
table as it is. -/
theorem C2_removed_on_completion (w : World) (seq : Nat) (c : Ptr)
    (hc : w.pending.get seq = some c) :
    (∀ h body, h.Seq = seq →
      (receiveStep w (.ok h) body).1.fired = w.fired ++ [c] ∧
      (receiveStep w (.ok h) body).1.pending.get seq = none) ∧
    (∀ err,
      (sendWritten w seq (some err)).fired = w.fired ++ [c] ∧
      (sendWritten w seq (some err)).pending.get seq = none) ∧
    (∀ ctxErr, (w.calls c).Seq = seq →
      (CallCancelled w c ctxErr).1.fired = w.fired ∧
      (CallCancelled w c ctxErr).1.pending.get seq = none) ∧
    (∀ err, (terminateCalls w err).pending = w.pending) := by
  refine ⟨?_, ?_, ?_, ?_⟩
  · intro h body hs
    subst hs
    simp only [receiveStep, removeCall, hc]
    split
    · simp [GoMap.get_delete_self]
    · cases body <;> simp [GoMap.get_delete_self]
  · intro err
    simp [sendWritten, removeCall, hc, GoMap.get_delete_self]
  · intro ctxErr hs
    simp [CallCancelled, removeCall, hs, GoMap.get_delete_self]
  · intro err
    exact (terminateLoop_frame err _ _).1

/-- The instance of C2 on the call pending under 3 in the client of `TestServeDay3`. -/
theorem C2_removed_on_completion_witness :
    fiveCalls.pending.get 3 = some 2 ∧
    (sendWritten fiveCalls 3 (some "broken pipe")).fired = fiveCalls.fired ++ [2] ∧
    (sendWritten fiveCalls 3 (some "broken pipe")).pending.get 3 = none :=
  ⟨by decide, ((C2_removed_on_completion fiveCalls 3 2 (by decide)).2.1 "broken pipe")⟩

/-! ## The flags and the sequence counter under the methods of the client -/

theorem registerCall_flags (w : World) (call : Ptr) :
    (registerCall w call).1.shutdown = w.shutdown ∧ (registerCall w call).1.closing = w.closing := by
  unfold registerCall
  split <;> simp

theorem receiveStep_flags (w : World) (hdr : Except String Header) (body : Except String Val) :
    (receiveStep w hdr body).1.shutdown = w.shutdown ∧
    (receiveStep w hdr body).1.closing = w.closing ∧
    (receiveStep w hdr body).1.seq = w.seq := by
  unfold receiveStep removeCall
  cases hdr with
  | error e => simp
  | ok h =>
    cases hg : w.pending.get h.Seq with
    | none => simp [hg]
    | some c =>
      by_cases he : h.Error.length = 0
      · cases body <;> simp [hg, he]
      · simp [hg, he]

theorem sendWritten_flags (w : World) (seq : Nat) (writeErr : Option String) :
    (sendWritten w seq writeErr).shutdown = w.shutdown ∧
    (sendWritten w seq writeErr).closing = w.closing ∧
    (sendWritten w seq writeErr).seq = w.seq := by
  unfold sendWritten removeCall
  cases writeErr with
  | none => simp
  | some e => cases hg : w.pending.get seq <;> simp [hg]

/-- What `registerCall` returns and does, by the two cases of its guard. -/
theorem registerCall_spec (w : World) (call : Ptr) :
    ((w.closing = true ∨ w.shutdown = true) → registerCall w call = (w, 0, some ErrShutdown)) ∧
    (w.closing = false → w.shutdown = false →
      (registerCall w call).2 = (w.seq, none) ∧
      ((registerCall w call).1.calls call).Seq = w.seq ∧
      (registerCall w call).1.pending.get w.seq = some call ∧
      (registerCall w call).1.seq = incU64 w.seq) := by
  constructor
  · intro h
    unfold registerCall
    rcases h with h | h <;> simp [h]
  · intro h1 h2
    unfold registerCall
    simp [h1, h2, GoMap.get_set_self]

theorem sendRegister_flags (w : World) (call : Ptr) :
    (sendRegister w call).1.shutdown = w.shutdown ∧ (sendRegister w call).1.closing = w.closing := by
  unfold sendRegister registerCall
  split <;> rename_i h
  · split at h
    · cases h; simp
    · cases h
  · split at h
    · cases h
    · cases h; simp

/-- The sequence counter under `sendRegister`: it advances exactly when the call is
registered, and then the number assigned is its old value. -/
theorem sendRegister_seq (w : World) (call : Ptr) :
    match (sendRegister w call).2 with
    | none => (sendRegister w call).1.seq = w.seq
    | some seq => seq = w.seq ∧ (sendRegister w call).1.seq = incU64 w.seq := by
  unfold sendRegister registerCall
  by_cases h : (w.closing || w.shutdown) = true
  · simp [h]
  · simp [h]

theorem makeChan_fields (w : World) (cap : Nat) :
    (w.makeChan cap).1.shutdown = w.shutdown ∧ (w.makeChan cap).1.closing = w.closing ∧
    (w.makeChan cap).1.seq = w.seq ∧ (w.makeChan cap).1.pending = w.pending ∧
    (w.makeChan cap).1.fired = w.fired ∧ (w.makeChan cap).1.calls = w.calls ∧
    (w.makeChan cap).1.nextCall = w.nextCall := by
  simp [World.makeChan, World.setChan]

theorem recvChan_fields (w : World) (ch : ChanId) :
    (w.recvChan ch).1.shutdown = w.shutdown ∧ (w.recvChan ch).1.closing = w.closing ∧
    (w.recvChan ch).1.seq = w.seq ∧ (w.recvChan ch).1.pending = w.pending ∧
    (w.recvChan ch).1.fired = w.fired ∧ (w.recvChan ch).1.calls = w.calls ∧
    (w.recvChan ch).1.nextCall = w.nextCall := by
  unfold World.recvChan
  split <;> simp [World.setChan]

theorem newCall_fields (w : World) (sm : String) (args reply : Val) (done : ChanId) :
    (newCall w sm args reply done).1.shutdown = w.shutdown ∧
    (newCall w sm args reply done).1.closing = w.closing ∧
    (newCall w sm args reply done).1.seq = w.seq ∧
    (newCall w sm args reply done).1.pending = w.pending ∧
    (newCall w sm args reply done).1.fired = w.fired ∧
    (newCall w sm args reply done).1.nextCall = w.nextCall + 1 ∧
    (newCall w sm args reply done).2 = w.nextCall := by
  simp [newCall]

/-- The result of `GoRegister` taken apart: the channel, the new call, the registration. -/
theorem GoRegister_eq (w : World) (sm : String) (args reply : Val) (done : Option ChanId)
    (r : World × Ptr × Option Nat) (h : GoRegister w sm args reply done = some r) :
    ∃ w1 ch, (w1 = w ∨ w1 = (w.makeChan 10).1) ∧
      r = ((sendRegister (newCall w1 sm args reply ch).1 w1.nextCall).1, w1.nextCall,
            (sendRegister (newCall w1 sm args reply ch).1 w1.nextCall).2) := by
  unfold GoRegister at h
  cases done with
  | none =>
    simp only [Option.some.injEq] at h
    exact ⟨(w.makeChan 10).1, (w.makeChan 10).2, Or.inr rfl, by rw [← h]; rfl⟩
  | some ch =>
    by_cases hc : (w.chans ch).cap = 0
    · simp [hc] at h
    · simp only [hc, if_false, Option.some.injEq] at h
      exact ⟨w, ch, Or.inl rfl, by rw [← h]; rfl⟩

theorem GoRegister_flags (w : World) (sm : String) (args reply : Val) (done : Option ChanId)
    (r : World × Ptr × Option Nat) (h : GoRegister w sm args reply done = some r) :
    r.1.shutdown = w.shutdown ∧ r.1.closing = w.closing := by
  obtain ⟨w1, ch, hw1, hr⟩ := GoRegister_eq w sm args reply done r h
  have h1 : w1.shutdown = w.shutdown ∧ w1.closing = w.closing := by
    rcases hw1 with e | e
    · rw [e]; exact ⟨rfl, rfl⟩
    · rw [e]; exact ⟨(makeChan_fields w 10).1, (makeChan_fields w 10).2.1⟩
  have h2 := sendRegister_flags (newCall w1 sm args reply ch).1 w1.nextCall
  have h3 := newCall_fields w1 sm args reply ch
  rw [hr]
  exact ⟨by rw [h2.1, h3.1, h1.1], by rw [h2.2, h3.2.1, h1.2]⟩

theorem GoRegister_seq (w : World) (sm : String) (args reply : Val) (done : Option ChanId)
    (r : World × Ptr × Option Nat) (h : GoRegister w sm args reply done = some r) :
    match r.2.2 with
    | none => r.1.seq = w.seq
    | some seq => seq = w.seq ∧ r.1.seq = incU64 w.seq := by
  obtain ⟨w1, ch, hw1, hr⟩ := GoRegister_eq w sm args reply done r h
  have h1 : w1.seq = w.seq := by
    rcases hw1 with e | e
    · rw [e]
    · rw [e]; exact (makeChan_fields w 10).2.2.1
  have h2 := sendRegister_seq (newCall w1 sm args reply ch).1 w1.nextCall
  have h3 := (newCall_fields w1 sm args reply ch).2.2.1
  rw [hr]
  simp only
  rw [h3, h1] at h2
  exact h2

theorem terminateCalls_flags (w : World) (err : String) :
    (terminateCalls w err).shutdown = true ∧ (terminateCalls w err).closing = w.closing ∧
    (terminateCalls w err).seq = w.seq ∧ (terminateCalls w err).pending = w.pending ∧
    (terminateCalls w err).fired = w.fired ++ GoMap.values w.pending := by
  obtain ⟨h1, h2, h3, h4, h5⟩ :=
    terminateLoop_frame err (GoMap.values w.pending) { w with shutdown := true }
  exact ⟨h2, h3, h4, h1, h5⟩

/-- No use of the client clears `shutdown`. -/
theorem apply_shutdown (w : World) (op : ClientOp) (h : w.shutdown = true) :
    (ClientOp.apply w op).1.shutdown = true := by
  cases op with
  | register call =>
    have := (registerCall_flags w call).1
    simp only [ClientOp.apply]
    split <;> rename_i e <;> rw [e] at this <;> simpa [h] using this
  | remove seq => simpa [ClientOp.apply, removeCall] using h
  | terminate err => exact (terminateCalls_flags w err).1
  | close closeErr =>
    simp only [ClientOp.apply, Close]
    split <;> simpa using h
  | frame hdr body => simpa [ClientOp.apply, (receiveStep_flags w hdr body).1] using h
  | go sm args reply done writeErr =>
    cases hG : GoRegister w sm args reply done with
    | none => simpa [ClientOp.apply, hG] using h
    | some r =>
      obtain ⟨w1, c, oseq⟩ := r
      have := (GoRegister_flags w sm args reply done _ hG).1
      simp only at this
      cases oseq with
      | none => simp [ClientOp.apply, hG, this, h]
      | some seq => simp [ClientOp.apply, hG, (sendWritten_flags w1 seq writeErr).1, this, h]
  | cancel call ctxErr => simpa [ClientOp.apply, CallCancelled, removeCall] using h
  | makeChan cap => simpa [ClientOp.apply, (makeChan_fields w cap).1] using h
  | recvChan ch => simpa [ClientOp.apply, (recvChan_fields w ch).1] using h

theorem runOps_shutdown (ops : List ClientOp) (w : World) (h : w.shutdown = true) :
    (runOps w ops).1.shutdown = true := by
  induction ops generalizing w with
  | nil => exact h
  | cons op ops ih =>
    have h1 := apply_shutdown w op h
    cases hA : ClientOp.apply w op with
    | mk w1 o =>
    rw [hA] at h1
    cases o <;> simp only [runOps, hA] <;> exact ih _ h1

/-- The sequence counter under one use of the client: it advances exactly when
`registerCall` succeeded, and then the number assigned is its old value. -/
theorem apply_seq (w : World) (op : ClientOp) :
    match (ClientOp.apply w op).2 with
    | none => (ClientOp.apply w op).1.seq = w.seq
    | some seq => seq = w.seq ∧ (ClientOp.apply w op).1.seq = incU64 w.seq := by
  cases op with
  | register call =>
    simp only [ClientOp.apply, registerCall]
    by_cases h : (w.closing || w.shutdown) = true
    · simp [h]
    · simp [h]
  | remove seq => simp [ClientOp.apply, removeCall]
  | terminate err => simpa [ClientOp.apply] using (terminateCalls_flags w err).2.2.1
  | close closeErr =>
    simp only [ClientOp.apply, Close]
    split <;> simp
  | frame hdr body => simpa [ClientOp.apply] using (receiveStep_flags w hdr body).2.2
  | go sm args reply done writeErr =>
    cases hG : GoRegister w sm args reply done with
    | none => simp [ClientOp.apply, hG]
    | some r =>
      obtain ⟨w1, c, oseq⟩ := r
      have := GoRegister_seq w sm args reply done _ hG
      cases oseq with
      | none => simpa [ClientOp.apply, hG] using this
      | some seq =>
        simp only at this
        simpa [ClientOp.apply, hG, (sendWritten_flags w1 seq writeErr).2.2] using this
  | cancel call ctxErr => simp [ClientOp.apply, CallCancelled, removeCall]
  | makeChan cap => simpa [ClientOp.apply] using (makeChan_fields w cap).2.2.1
  | recvChan ch => simpa [ClientOp.apply] using (recvChan_fields w ch).2.2.1

theorem incU64_lt (x : Nat) : incU64 x < U64 := Nat.mod_lt _ (by decide)

/-- The sequence numbers a run assigns are the successive values of the counter, modulo
`2 ^ 64`. -/
theorem runOps_seqs (ops : List ClientOp) (w : World) (hw : w.seq < U64) :
    (runOps w ops).2 =
      (List.range (runOps w ops).2.length).map (fun i => (w.seq + i) % U64) ∧
    (runOps w ops).1.seq = (w.seq + (runOps w ops).2.length) % U64 := by
  induction ops generalizing w with
  | nil => simp [runOps, Nat.mod_eq_of_lt hw]
  | cons op ops ih =>
    have h1 := apply_seq w op
    cases hA : ClientOp.apply w op with
    | mk w1 o =>
    rw [hA] at h1
    cases o with
    | none =>
      simp only at h1
      simp only [runOps, hA]
      have := ih w1 (by rw [h1]; exact hw)
      rw [h1] at this
      exact this
    | some seq =>
      simp only at h1
      simp only [runOps, hA]
      obtain ⟨hs, hq⟩ := h1
      have hlt : w1.seq < U64 := by rw [hq]; exact incU64_lt _
      obtain ⟨ih1, ih2⟩ := ih w1 hlt
      have hmod : ∀ i, (w1.seq + i) % U64 = (w.seq + (i + 1)) % U64 := by
        intro i
        rw [hq, incU64, Nat.mod_add_mod]
        congr 1
        omega
      constructor
      · simp only [List.length_cons, List.range_succ_eq_map, List.map_cons, List.map_map]
        rw [hs, Nat.add_zero, Nat.mod_eq_of_lt hw]
        congr 1
        rw [ih1]
        simp only [List.length_map, List.length_range]
        apply List.map_congr_left
        intro i _
        exact hmod i
      · simp only [List.length_cons]
        rw [ih2, hmod]

/-! ## terminateCalls -/

/-- The loop of `terminateCalls` never waits when the buffers have room for the calls it
visits; `d` names the `Done` channel of every call. -/
theorem terminateLoop_blocked (err : String) (d : Ptr → ChanId) (l : List Ptr) (w : World)
    (hd : ∀ q, (w.calls q).Done = d q)
    (hroom : ∀ p ∈ l,
      (w.chans (d p)).buf.length + l.countP (fun q => decide (d q = d p)) ≤ (w.chans (d p)).cap) :
    (l.foldl (terminateOne err) w).blocked = w.blocked := by
  induction l generalizing w with
  | nil => rfl
  | cons p l ih =>
    simp only [List.foldl_cons]
    have hp := hroom p (List.mem_cons_self _ _)
    have hd0 : ((w.setCall p { (w.calls p) with Error := some err }).calls p).Done = d p := by
      simp [hd p]
    have hlt : ((w.setCall p { (w.calls p) with Error := some err }).chans
          ((w.setCall p { (w.calls p) with Error := some err }).calls p).Done).buf.length <
        ((w.setCall p { (w.calls p) with Error := some err }).chans
          ((w.setCall p { (w.calls p) with Error := some err }).calls p).Done).cap := by
      rw [hd0]
      simp only [setCall_chans]
      simp only [List.countP_cons, decide_True, if_true] at hp
      omega
    obtain ⟨hb, hc⟩ := done_blocked_of_room _ p hlt
    rw [hd0] at hc
    simp only [setCall_chans, setCall_blocked] at hb hc
    have hone : terminateOne err w p = Call.done (w.setCall p { (w.calls p) with Error := some err }) p := rfl
    rw [ih (terminateOne err w p), hone, hb]
    · intro q
      rw [terminateOne_calls]
      split
      · rename_i e; rw [e]; simp [hd p]
      · exact hd q
    · intro q hq
      have hqroom := hroom q (List.mem_cons_of_mem _ hq)
      simp only [List.countP_cons] at hqroom
      by_cases hqp : d p = d q
      · rw [hone, ← hqp, hc]
        simp only [List.length_append, List.length_singleton]
        simp only [hqp, decide_True, if_true] at hqroom
        have e1 : ((Call.done (w.setCall p { (w.calls p) with Error := some err }) p).chans (d p)).cap
            = (w.chans (d p)).cap := by rw [hc]
        rw [hqp]
        rw [hqp] at e1
        omega
      · have hne : d q ≠ ((w.setCall p { (w.calls p) with Error := some err }).calls p).Done := by
          rw [hd0]; exact fun e => hqp e.symm
        rw [hone, done_chans_ne _ _ _ hne]
        simp only [setCall_chans]
        simp only [hqp, decide_False] at hqroom
        simpa using hqroom

/-- With room in the buffers for the calls it visits, the loop of `terminateCalls` returns
without a receiver, in the state `terminateOne` gives call by call; `d` names the `Done`
channel of every call. -/
theorem terminateLoopRun_of_room (err : String) (d : Ptr → ChanId) (l : List Ptr) (w : World)
    (hd : ∀ q, (w.calls q).Done = d q)
    (hroom : ∀ p ∈ l,
      (w.chans (d p)).buf.length + l.countP (fun q => decide (d q = d p)) ≤ (w.chans (d p)).cap) :
    (terminateLoopRun err w l).world = l.foldl (terminateOne err) w ∧
    (terminateLoopRun err w l).waits = none ∧
    (terminateLoopRun err w l).unvisited = [] := by
  induction l generalizing w with
  | nil => exact ⟨rfl, rfl, rfl⟩
  | cons p l ih =>
    have hp := hroom p (List.mem_cons_self _ _)
    have hd0 : ((w.setCall p { (w.calls p) with Error := some err }).calls p).Done = d p := by
      simp [hd p]
    have hlt : ((w.setCall p { (w.calls p) with Error := some err }).chans
          ((w.setCall p { (w.calls p) with Error := some err }).calls p).Done).buf.length <
        ((w.setCall p { (w.calls p) with Error := some err }).chans
          ((w.setCall p { (w.calls p) with Error := some err }).calls p).Done).cap := by
      rw [hd0]
      simp only [setCall_chans]
      simp only [List.countP_cons, decide_True, if_true] at hp
      omega
    have hw : Call.doneWaits (w.setCall p { (w.calls p) with Error := some err }) p = false := by
      simp only [Call.doneWaits, decide_eq_false_iff_not, not_le]
      exact hlt
    obtain ⟨_, hc⟩ := done_blocked_of_room _ p hlt
    rw [hd0] at hc
    simp only [setCall_chans] at hc
    have hone : terminateOne err w p = Call.done (w.setCall p { (w.calls p) with Error := some err }) p := rfl
    have hrun : terminateLoopRun err w (p :: l) = terminateLoopRun err (terminateOne err w p) l := by
      rw [hone]
      simp only [terminateLoopRun, hw, Bool.false_eq_true, if_false]
    rw [hrun, List.foldl_cons]
    apply ih (terminateOne err w p)
    · intro q
      rw [terminateOne_calls]
      split
      · rename_i e; rw [e]; simp [hd p]
      · exact hd q
    · intro q hq
      have hqroom := hroom q (List.mem_cons_of_mem _ hq)
      simp only [List.countP_cons] at hqroom
      by_cases hqp : d p = d q
      · rw [hone, ← hqp, hc]
        simp only [List.length_append, List.length_singleton]
        simp only [hqp, decide_True, if_true] at hqroom
        have e1 : ((Call.done (w.setCall p { (w.calls p) with Error := some err }) p).chans (d p)).cap
            = (w.chans (d p)).cap := by rw [hc]
        rw [hqp]
        rw [hqp] at e1
        omega
      · have hne : d q ≠ ((w.setCall p { (w.calls p) with Error := some err }).calls p).Done := by
          rw [hd0]; exact fun e => hqp e.symm
        rw [hone, done_chans_ne _ _ _ hne]
        simp only [setCall_chans]
        simp only [hqp, decide_False] at hqroom
        simpa using hqroom

/-- With room in the buffers for the calls it visits, the loop of `terminateCalls` leaves
every call it visits in the buffer of its `Done` channel, behind what was there; `d` names
the `Done` channel of every call. -/
theorem terminateLoop_buf (err : String) (d : Ptr → ChanId) (l : List Ptr) (w : World)
    (hd : ∀ q, (w.calls q).Done = d q)
    (hroom : ∀ p ∈ l,
      (w.chans (d p)).buf.length + l.countP (fun q => decide (d q = d p)) ≤ (w.chans (d p)).cap)
    (ch : ChanId) :
    ((l.foldl (terminateOne err) w).chans ch).buf =
      (w.chans ch).buf ++ l.filter (fun q => decide (d q = ch)) := by
  induction l generalizing w with
  | nil => simp
  | cons p l ih =>
    have hp := hroom p (List.mem_cons_self _ _)
    have hd0 : ((w.setCall p { (w.calls p) with Error := some err }).calls p).Done = d p := by
      simp [hd p]
    have hlt : ((w.setCall p { (w.calls p) with Error := some err }).chans
          ((w.setCall p { (w.calls p) with Error := some err }).calls p).Done).buf.length <
        ((w.setCall p { (w.calls p) with Error := some err }).chans
          ((w.setCall p { (w.calls p) with Error := some err }).calls p).Done).cap := by
      rw [hd0]
      simp only [setCall_chans]
      simp only [List.countP_cons, decide_True, if_true] at hp
      omega
    obtain ⟨_, hc⟩ := done_blocked_of_room _ p hlt
    rw [hd0] at hc
    simp only [setCall_chans] at hc
    have hone : terminateOne err w p = Call.done (w.setCall p { (w.calls p) with Error := some err }) p := rfl
    have hd1 : ∀ q, ((terminateOne err w p).calls q).Done = d q := by
      intro q
      rw [terminateOne_calls]
      split
      · rename_i e; rw [e]; simp [hd p]
      · exact hd q
    have hroom1 : ∀ q ∈ l,
        ((terminateOne err w p).chans (d q)).buf.length + l.countP (fun r => decide (d r = d q)) ≤
          ((terminateOne err w p).chans (d q)).cap := by
      intro q hq
      have hqroom := hroom q (List.mem_cons_of_mem _ hq)
      simp only [List.countP_cons] at hqroom
      by_cases hqp : d p = d q
      · rw [hone, ← hqp, hc]
        simp only [List.length_append, List.length_singleton]
        simp only [hqp, decide_True, if_true] at hqroom
        have e1 : ((Call.done (w.setCall p { (w.calls p) with Error := some err }) p).chans (d p)).cap
            = (w.chans (d p)).cap := by rw [hc]
        rw [hqp]
        rw [hqp] at e1
        omega
      · have hne : d q ≠ ((w.setCall p { (w.calls p) with Error := some err }).calls p).Done := by
          rw [hd0]; exact fun e => hqp e.symm
        rw [hone, done_chans_ne _ _ _ hne]
        simp only [setCall_chans]
        simp only [hqp, decide_False] at hqroom
        simpa using hqroom
    rw [List.foldl_cons, ih (terminateOne err w p) hd1 hroom1]
    by_cases hch : d p = ch
    · rw [hone, ← hch, hc]
      simp [List.filter_cons]
    · have hne : ch ≠ ((w.setCall p { (w.calls p) with Error := some err }).calls p).Done := by
        rw [hd0]; exact fun e => hch e.symm
      rw [hone, done_chans_ne _ _ _ hne]
      simp [List.filter_cons, hch]

/-- C4, the state that refutes it: three calls issued through `Go` with one `done` channel of
capacity 1 are pending (under 1, 2 and 3, the channel empty, nobody receiving).
`terminateCalls` completes the first call it visits; it sets the `Error` of the second and
then waits in the send of its completion, holding both mutexes; the third is skipped as long
as the caller does not receive: its `Error` is not set and its completion is not sent. -/
theorem C4_terminateCalls_blocks :
    GoMap.keys sharedDoneThree.pending = [3, 2, 1] ∧
    GoMap.values sharedDoneThree.pending = [2, 1, 0] ∧
    (sharedDoneThree.calls 0).Done = 0 ∧ (sharedDoneThree.calls 1).Done = 0 ∧
    (sharedDoneThree.calls 2).Done = 0 ∧
    sharedDoneThree.chans 0 = { cap := 1, buf := [] } ∧
    sharedDoneThree.fired = [] ∧
    (terminateCallsRun sharedDoneThree "unexpected EOF").waits = some 1 ∧
    (terminateCallsRun sharedDoneThree "unexpected EOF").unvisited = [0] ∧
    (terminateCallsRun sharedDoneThree "unexpected EOF").world.fired = [2] ∧
    (terminateCallsRun sharedDoneThree "unexpected EOF").world.chans 0 = { cap := 1, buf := [2] } ∧
    ((terminateCallsRun sharedDoneThree "unexpected EOF").world.calls 2).Error = some "unexpected EOF" ∧
    ((terminateCallsRun sharedDoneThree "unexpected EOF").world.calls 1).Error = some "unexpected EOF" ∧
    ((terminateCallsRun sharedDoneThree "unexpected EOF").world.calls 0).Error = none := by
  decide

/-- C4 (total termination), under the condition the code needs. In every client state in
which the buffers of the `Done` channels have room for the pending calls (`RoomForPending`),
and for every error `err`, `terminateCalls err` returns without waiting for a receiver: no
send waits and no pending call is left unvisited. It has then set the `Error` of every
pending call to `err` and changed nothing else of any call; it has sent the completion
signal of every pending call, one per entry of the pending table and no other, none of them
after a wait, and every pending call is in the buffer of its `Done` channel, behind what
the buffer held before; it has marked the client shut down, so that from then on, whatever is done
with the client, `IsAvailable` is false and `registerCall` returns 0 and `ErrShutdown`
without changing the state. -/
theorem C4_terminateCalls_total (w : World) (err : String) (hroom : RoomForPending w) :
    (terminateCallsRun w err).waits = none ∧
    (terminateCallsRun w err).unvisited = [] ∧
    (∀ p, (terminateCallsRun w err).world.calls p =
      if p ∈ GoMap.values w.pending then { (w.calls p) with Error := some err } else w.calls p) ∧
    (terminateCallsRun w err).world.fired = w.fired ++ GoMap.values w.pending ∧
    (∀ ch, ((terminateCallsRun w err).world.chans ch).buf =
      (w.chans ch).buf ++
        (GoMap.values w.pending).filter (fun q => decide ((w.calls q).Done = ch))) ∧
    (terminateCallsRun w err).world.blocked = w.blocked ∧
    (terminateCallsRun w err).world.pending = w.pending ∧
    (terminateCallsRun w err).world.shutdown = true ∧
    (∀ ops call,
      IsAvailable (runOps (terminateCallsRun w err).world ops).1 = false ∧
      registerCall (runOps (terminateCallsRun w err).world ops).1 call =
        ((runOps (terminateCallsRun w err).world ops).1, 0, some ErrShutdown)) := by
  obtain ⟨hworld, hwaits, hrest⟩ :=
    terminateLoopRun_of_room err (fun q => (w.calls q).Done) (GoMap.values w.pending)
      { w with shutdown := true } (fun _ => rfl) hroom
  have hw : (terminateCallsRun w err).world = terminateCalls w err := hworld
  refine ⟨hwaits, hrest, ?_, ?_, ?_, ?_, ?_, ?_, ?_⟩
  · intro p
    rw [hw]
    exact terminateLoop_calls err _ _ p
  · rw [hw]
    exact (terminateCalls_flags w err).2.2.2.2
  · intro ch
    rw [hw]
    exact terminateLoop_buf err (fun q => (w.calls q).Done) _ { w with shutdown := true }
      (fun _ => rfl) hroom ch
  · rw [hw]
    exact terminateLoop_blocked err (fun q => (w.calls q).Done) _ { w with shutdown := true }
      (fun _ => rfl) hroom
  · rw [hw]
    exact (terminateCalls_flags w err).2.2.2.1
  · rw [hw]
    exact (terminateCalls_flags w err).1
  · intro ops call
    rw [hw]
    have hs := runOps_shutdown ops _ (terminateCalls_flags w err).1
    exact ⟨by simp [IsAvailable, hs], (registerCall_spec _ call).1 (Or.inr hs)⟩

/-- The instance of C4 on the client of `TestServeDay3`, whose five pending calls have a
channel of capacity 1 each: `terminateCalls` returns, all five calls are completed with the
error, no send has waited. -/
theorem C4_terminateCalls_total_witness :
    RoomForPending fiveCalls ∧
    (terminateCallsRun fiveCalls "unexpected EOF").waits = none ∧
    (terminateCallsRun fiveCalls "unexpected EOF").world.fired = [4, 3, 2, 1, 0] ∧
    (terminateCallsRun fiveCalls "unexpected EOF").world.blocked = [] :=
  have room : RoomForPending fiveCalls := by
    intro p hp
    have hp2 : p = 4 ∨ p = 3 ∨ p = 2 ∨ p = 1 ∨ p = 0 := by
      have e : GoMap.values fiveCalls.pending = [4, 3, 2, 1, 0] := by decide
      rw [e] at hp
      simpa using hp
    rcases hp2 with e | e | e | e | e <;> subst e <;> decide
  ⟨room, (C4_terminateCalls_total fiveCalls "unexpected EOF" room).1,
    (C4_terminateCalls_total fiveCalls "unexpected EOF" room).2.2.2.1,
    (C4_terminateCalls_total fiveCalls "unexpected EOF" room).2.2.2.2.2.1⟩

/-! ## Sequence numbers -/

theorem sendRegister_isSome (w : World) (call : Ptr) (h1 : w.closing = false)
    (h2 : w.shutdown = false) : ∃ seq, (sendRegister w call).2 = some seq := by
  unfold sendRegister registerCall
  simp [h1, h2]

/-- While the client is neither closing nor shut down, `goSum` registers its call. -/
theorem apply_goSum (w : World) (h1 : w.closing = false) (h2 : w.shutdown = false) :
    (∃ seq, (ClientOp.apply w goSum).2 = some seq) ∧
    (ClientOp.apply w goSum).1.closing = false ∧ (ClientOp.apply w goSum).1.shutdown = false := by
  cases hG : GoRegister w "Foo.Sum" (.args 1 1) (.int 0) none with
  | none => simp [GoRegister] at hG
  | some r =>
    obtain ⟨w1, c, oseq⟩ := r
    have hf := GoRegister_flags w _ _ _ _ _ hG
    obtain ⟨w0, ch, hw0, hr⟩ := GoRegister_eq w _ _ _ _ _ hG
    have hfl : (newCall w0 "Foo.Sum" (.args 1 1) (.int 0) ch).1.closing = false ∧
        (newCall w0 "Foo.Sum" (.args 1 1) (.int 0) ch).1.shutdown = false := by
      have h3 := newCall_fields w0 "Foo.Sum" (.args 1 1) (.int 0) ch
      rcases hw0 with e | e
      · rw [h3.2.1, h3.1, e]; exact ⟨h1, h2⟩
      · rw [h3.2.1, h3.1, e, (makeChan_fields w 10).1, (makeChan_fields w 10).2.1]; exact ⟨h1, h2⟩
    obtain ⟨seq, hseq⟩ := sendRegister_isSome _ w0.nextCall hfl.1 hfl.2
    have ho : oseq = some seq := by
      have := congrArg (fun x => x.2.2) hr
      simp only at this
      rw [this, hseq]
    subst ho
    simp only at hf
    refine ⟨⟨seq, by simp [goSum, ClientOp.apply, hG]⟩, ?_, ?_⟩
    · simp [goSum, ClientOp.apply, hG, (sendWritten_flags w1 seq none).2.1, hf.2, h1]
    · simp [goSum, ClientOp.apply, hG, (sendWritten_flags w1 seq none).1, hf.1, h2]

/-- A run of `m` calls `goSum` on a client that is neither closing nor shut down registers
`m` calls and leaves the flags as they are. -/
theorem runOps_goSum (m : Nat) (w : World) (h1 : w.closing = false) (h2 : w.shutdown = false) :
    (runOps w (List.replicate m goSum)).2.length = m ∧
    (runOps w (List.replicate m goSum)).1.closing = false ∧
    (runOps w (List.replicate m goSum)).1.shutdown = false := by
  induction m generalizing w with
  | zero => exact ⟨rfl, h1, h2⟩
  | succ m ih =>
    obtain ⟨⟨seq, hs⟩, hc, hd⟩ := apply_goSum w h1 h2
    cases hA : ClientOp.apply w goSum with
    | mk w1 o =>
    rw [hA] at hs hc hd
    simp only at hs hc hd
    subst hs
    obtain ⟨i1, i2, i3⟩ := ih w1 hc hd
    simp only [List.replicate_succ, runOps, hA, List.length_cons]
    exact ⟨by rw [i1], i2, i3⟩

/-- C5, the run that refutes it: after `2 ^ 64 - 1` successful registrations on a client
made by `NewClientCodec` the client is still available, and the next `registerCall`, the
`2 ^ 64`-th successful one, assigns the sequence number 0. -/
theorem C5_sequence_wraps_to_zero :
    (runOps NewClientCodec (List.replicate (U64 - 1) goSum)).2.length = U64 - 1 ∧
    IsAvailable (runOps NewClientCodec (List.replicate (U64 - 1) goSum)).1 = true ∧
    (registerCall (runOps NewClientCodec (List.replicate (U64 - 1) goSum)).1 0).2 = (0, none) := by
  obtain ⟨h1, h2, h3⟩ := runOps_goSum (U64 - 1) NewClientCodec rfl rfl
  have hseq := (runOps_seqs (List.replicate (U64 - 1) goSum) NewClientCodec (by decide)).2
  rw [h1] at hseq
  have h0 : (NewClientCodec.seq + (U64 - 1)) % U64 = 0 := by decide
  rw [h0] at hseq
  refine ⟨h1, by simp [IsAvailable, h2, h3], ?_⟩
  rw [((registerCall_spec _ 0).2 h2 h3).1, hseq]

/-- C5 (sequence numbering), as the code has it. On a client made by `NewClientCodec` and
after any run of uses, with `seqs` the sequence numbers assigned so far by the successful
calls of `registerCall`: for every `k` with `1 ≤ k < 2 ^ 64` the `k`-th of them is `k`, so
that, as long as fewer than `2 ^ 64` were assigned, they are strictly increasing (hence
pairwise distinct) and none is 0. The next `registerCall`, on a client neither closing nor
shut down, returns `seqs.length + 1` (when that is below `2 ^ 64`) with a nil error, writes
it into the call and stores the call under that key. On a client closing or shut down it
returns 0 and `ErrShutdown` and changes nothing. -/
theorem C5_sequence_numbers (ops : List ClientOp) (call : Ptr) :
    (∀ k, k < (runOps NewClientCodec ops).2.length → k + 1 < U64 →
      (runOps NewClientCodec ops).2[k]? = some (k + 1)) ∧
    ((runOps NewClientCodec ops).2.length < U64 →
      (runOps NewClientCodec ops).2 = List.range' 1 (runOps NewClientCodec ops).2.length ∧
      List.Pairwise (fun a b => a < b) (runOps NewClientCodec ops).2 ∧
      0 ∉ (runOps NewClientCodec ops).2) ∧
    ((runOps NewClientCodec ops).1.closing = false → (runOps NewClientCodec ops).1.shutdown = false →
      (runOps NewClientCodec ops).2.length + 1 < U64 →
      (registerCall (runOps NewClientCodec ops).1 call).2 = ((runOps NewClientCodec ops).2.length + 1, none) ∧
      ((registerCall (runOps NewClientCodec ops).1 call).1.calls call).Seq =
        (runOps NewClientCodec ops).2.length + 1 ∧
      (registerCall (runOps NewClientCodec ops).1 call).1.pending.get
        ((runOps NewClientCodec ops).2.length + 1) = some call) ∧
    (((runOps NewClientCodec ops).1.closing = true ∨ (runOps NewClientCodec ops).1.shutdown = true) →
      registerCall (runOps NewClientCodec ops).1 call =
        ((runOps NewClientCodec ops).1, 0, some ErrShutdown)) := by
  obtain ⟨hl, hq⟩ := runOps_seqs ops NewClientCodec (by decide)
  have h1 : NewClientCodec.seq = 1 := rfl
  rw [h1] at hl hq
  generalize (runOps NewClientCodec ops).2 = seqs at hl hq
  generalize (runOps NewClientCodec ops).1 = w at hq
  refine ⟨?_, ?_, ?_, (registerCall_spec w call).1⟩
  · intro k hk hk2
    rw [hl, List.getElem?_map, List.getElem?_range hk]
    simp only [Option.map_some']
    rw [Nat.mod_eq_of_lt (by omega)]
    congr 1
    omega
  · intro hn
    have hr : seqs = List.range' 1 seqs.length := by
      rw [List.range'_eq_map_range]
      conv_lhs => rw [hl]
      apply List.map_congr_left
      intro i hi
      rw [List.mem_range] at hi
      exact Nat.mod_eq_of_lt (by omega)
    refine ⟨hr, ?_, ?_⟩
    · rw [hr]
      exact List.pairwise_lt_range' 1 seqs.length
    · rw [hr]
      simp only [List.mem_range'_1]
      omega
  · intro hc hs hn
    obtain ⟨r1, r2, r3, _⟩ := (registerCall_spec w call).2 hc hs
    have hw : w.seq = seqs.length + 1 := by
      rw [hq, Nat.mod_eq_of_lt (by omega)]
      omega
    rw [hw] at r1 r2 r3
    exact ⟨r1, r2, r3⟩

/-- The instance of C5 on the client of five registered calls: the five sequence numbers
are 1 to 5 and the sixth registration gets 6. -/
theorem C5_sequence_numbers_witness :
    (runOps NewClientCodec (List.replicate 5 goSum)).2 = [1, 2, 3, 4, 5] ∧
    (registerCall (runOps NewClientCodec (List.replicate 5 goSum)).1 7).2 = (6, none) :=
  have hlen : (runOps NewClientCodec (List.replicate 5 goSum)).2.length = 5 := by decide
  have key := C5_sequence_numbers (List.replicate 5 goSum) 7
  ⟨by
      have := (key.2.1 (by rw [hlen]; decide)).1
      rw [hlen] at this
      exact this,
    by
      have := (key.2.2.1 (by decide) (by decide) (by rw [hlen]; decide)).1
      rw [hlen] at this
      exact this⟩

/-! ## No double completion -/

theorem GoMap.values_delete_sublist {κ β : Type} [DecidableEq κ] (m : GoMap κ β) (s : κ) :
    List.Sublist (GoMap.values (GoMap.delete m s)) (GoMap.values m) :=
  List.Sublist.map _ (List.filter_sublist m)

theorem GoMap.mem_values_of_get {κ β : Type} [DecidableEq κ] (m : GoMap κ β) (k : κ) (v : β)
    (h : m.get k = some v) : v ∈ GoMap.values m :=
  List.mem_map.mpr ⟨(k, v), GoMap.mem_of_get m k v h, rfl⟩

/-- In a table without a value stored twice, deleting a key removes its value from the
values. -/
theorem GoMap.not_mem_values_delete {κ β : Type} [DecidableEq κ] (m : GoMap κ β) (s : κ) (c : β)
    (hg : m.get s = some c) (hn : (GoMap.values m).Nodup) :
    c ∉ GoMap.values (GoMap.delete m s) := by
  induction m with
  | nil => simp [GoMap.get] at hg
  | cons e m ih =>
    obtain ⟨k, v⟩ := e
    have hn2 : v ∉ GoMap.values m ∧ (GoMap.values m).Nodup := by
      simpa [GoMap.values] using hn
    rw [GoMap.delete_cons]
    by_cases hk : k = s
    · rw [if_pos hk]
      rw [GoMap.get, if_pos hk] at hg
      cases hg
      exact fun hm => hn2.1 ((GoMap.values_delete_sublist m s).subset hm)
    · rw [if_neg hk]
      rw [GoMap.get, if_neg hk] at hg
      have hcv : c ≠ v := fun e => hn2.1 (e ▸ GoMap.mem_values_of_get m s c hg)
      intro hm
      simp only [GoMap.values, List.map_cons, List.mem_cons] at hm
      rcases hm with e | e
      · exact hcv e
      · exact ih hg hn2.2 e

theorem receiveStep_removes (w : World) (h : Header) (body : Except String Val) :
    Removes w (receiveStep w (.ok h) body).1 h.Seq := by
  unfold Removes
  simp only [receiveStep, removeCall]
  cases hg : w.pending.get h.Seq with
  | none => simp
  | some c =>
    by_cases he : h.Error.length = 0
    · cases body <;> simp [he]
    · simp [he]

theorem sendWritten_removes (w : World) (seq : Nat) (err : String) :
    Removes w (sendWritten w seq (some err)) seq := by
  unfold Removes
  simp only [sendWritten, removeCall]
  cases hg : w.pending.get seq <;> simp

theorem cancel_removes (w : World) (call : Ptr) (ctxErr : String) :
    Removes w (CallCancelled w call ctxErr).1 (w.calls call).Seq := by
  simp [Removes, CallCancelled, removeCall]

theorem terminateLoop_nextCall (err : String) (l : List Ptr) (w : World) :
    (l.foldl (terminateOne err) w).nextCall = w.nextCall := by
  induction l generalizing w with
  | nil => rfl
  | cons p l ih => simp only [List.foldl_cons]; rw [ih]; simp [terminateOne]

/-- The invariant under a removal, provided that `receive` has not returned when a call is
signalled. -/
theorem inv_of_removes (s : Sys) (w1 : World) (seq : Nat) (r : RecvPc) (wr : Option Nat)
    (hinv : s.Inv) (hrm : Removes s.w w1 seq)
    (hsig : w1.fired ≠ s.w.fired → s.recv ≠ .exited)
    (hrecv : r = .exited ↔ s.recv = .exited)
    (hwr : r = .exited → wr = none) :
    Sys.Inv { w := w1, recv := r, writing := wr } := by
  obtain ⟨i1, i2, i3, i4, i5, i6⟩ := hinv
  obtain ⟨r1, r2, r3, r4⟩ := hrm
  have hsub := GoMap.values_delete_sublist s.w.pending seq
  unfold Sys.Inv
  simp only [r1, r2, r3]
  rcases r4 with hf | ⟨c, hg, hf⟩
  · rw [hf]
    refine ⟨i1, i2, fun p hp => i3 p (hsub.subset hp), i4.sublist hsub, ?_, ?_⟩
    · intro hne p hp
      exact i5 (fun hx => hne (hrecv.mpr hx)) p (hsub.subset hp)
    · intro hx
      exact ⟨(i6 (hrecv.mp hx)).1, hwr hx⟩
  · have hrun : s.recv ≠ .exited := hsig (by rw [hf]; simp)
    have hcm : c ∈ GoMap.values s.w.pending := GoMap.mem_values_of_get _ _ _ hg
    have hcf : c ∉ s.w.fired := i5 hrun c hcm
    rw [hf]
    refine ⟨?_, ?_, fun p hp => i3 p (hsub.subset hp), i4.sublist hsub, ?_, ?_⟩
    · exact List.Nodup.append i1 (List.nodup_singleton c) (by simpa using hcf)
    · intro p hp
      rcases List.mem_append.mp hp with h | h
      · exact i2 p h
      · rw [List.mem_singleton.mp h]; exact i3 c hcm
    · intro _ p hp hpf
      rcases List.mem_append.mp hpf with h | h
      · exact i5 hrun p (hsub.subset hp) h
      · rw [List.mem_singleton.mp h] at hp
        exact GoMap.not_mem_values_delete _ _ _ hg i4 hp
    · intro hx
      exact absurd (hrecv.mp hx) hrun

/-- The invariant under `terminateCalls`, run by `receive` on its way out while no write is
in flight. -/
theorem inv_terminate (s : Sys) (err : String) (hinv : s.Inv) (hr : s.recv = .failed err) :
    Sys.Inv { w := terminateCalls s.w err, recv := .exited, writing := none } := by
  obtain ⟨i1, i2, i3, i4, i5, _⟩ := hinv
  obtain ⟨t1, _, _, t4, t5⟩ := terminateCalls_flags s.w err
  have hn : (terminateCalls s.w err).nextCall = s.w.nextCall :=
    terminateLoop_nextCall err _ _
  have hrun : s.recv ≠ .exited := by rw [hr]; exact fun h => RecvPc.noConfusion h
  unfold Sys.Inv
  simp only [t1, t4, t5, hn]
  refine ⟨?_, ?_, i3, i4, ?_, fun _ => ⟨trivial, trivial⟩⟩
  · refine List.Nodup.append i1 i4 ?_
    intro p hpf hpp
    exact i5 hrun p hpp hpf
  · intro p hp
    rcases List.mem_append.mp hp with h | h
    · exact i2 p h
    · exact i3 p h
  · intro h
    exact absurd rfl h

/-- The effect of `sendRegister` on the pending table and on the signals: either the call
is refused and signalled, or the client is not shut down and the call is stored. -/
theorem sendRegister_effect (w : World) (call : Ptr) :
    (sendRegister w call).1.nextCall = w.nextCall ∧
    (sendRegister w call).1.shutdown = w.shutdown ∧
    (((sendRegister w call).2 = none ∧ (sendRegister w call).1.pending = w.pending ∧
        (sendRegister w call).1.fired = w.fired ++ [call]) ∨
      (∃ seq, (sendRegister w call).2 = some seq ∧ w.shutdown = false ∧
        (sendRegister w call).1.pending = w.pending.set seq call ∧
        (sendRegister w call).1.fired = w.fired)) := by
  unfold sendRegister registerCall
  by_cases h : (w.closing || w.shutdown) = true
  · simp [h]
  · have hs : w.shutdown = false := by
      cases hh : w.shutdown
      · rfl
      · rw [hh] at h; simp at h
    have hc : w.closing = false := by
      cases hh : w.closing
      · rfl
      · rw [hh] at h; simp at h
    simp [hs, hc]

/-- The invariant under `Go` up to the write. -/
theorem inv_go (s : Sys) (sm : String) (args reply : Val) (done : Option ChanId)
    (r : World × Ptr × Option Nat) (hinv : s.Inv) (hG : GoRegister s.w sm args reply done = some r) :
    Sys.Inv { w := r.1, recv := s.recv, writing := r.2.2 } := by
  obtain ⟨i1, i2, i3, i4, i5, i6⟩ := hinv
  obtain ⟨w1, ch, hw1, hr⟩ := GoRegister_eq s.w sm args reply done r hG
  have e1 : w1.fired = s.w.fired ∧ w1.pending = s.w.pending ∧ w1.nextCall = s.w.nextCall ∧
      w1.shutdown = s.w.shutdown := by
    rcases hw1 with e | e
    · rw [e]; exact ⟨rfl, rfl, rfl, rfl⟩
    · rw [e]
      have := makeChan_fields s.w 10
      exact ⟨this.2.2.2.2.1, this.2.2.2.1, this.2.2.2.2.2.2, this.1⟩
  obtain ⟨f1, f2, f3, f4⟩ := e1
  obtain ⟨n1, _, _, n4, n5, n6, _⟩ := newCall_fields w1 sm args reply ch
  obtain ⟨g1, g2, g3⟩ := sendRegister_effect (newCall w1 sm args reply ch).1 w1.nextCall
  rw [n6, f3] at g1
  rw [n1, f4, f3] at g2
  rw [n4, n5, f1, f2, f3, n1, f4] at g3
  rw [f3] at hr
  rw [hr]
  unfold Sys.Inv
  simp only [g1, g2]
  rcases g3 with ⟨o, hp, hf⟩ | ⟨seq, o, hsd, hp, hf⟩
  · simp only [o, hp, hf]
    have hfresh : s.w.nextCall ∉ s.w.fired := fun h => Nat.lt_irrefl _ (i2 _ h)
    refine ⟨?_, ?_, ?_, i4, ?_, ?_⟩
    · exact List.Nodup.append i1 (List.nodup_singleton _) (by simpa using hfresh)
    · intro p hp
      rcases List.mem_append.mp hp with h | h
      · exact Nat.lt_succ_of_lt (i2 p h)
      · rw [List.mem_singleton.mp h]; exact Nat.lt_succ_self _
    · intro p hp
      exact Nat.lt_succ_of_lt (i3 p hp)
    · intro hx p hp hpf
      rcases List.mem_append.mp hpf with h | h
      · exact i5 hx p hp h
      · rw [List.mem_singleton.mp h] at hp
        exact Nat.lt_irrefl _ (i3 _ hp)
    · intro hx
      exact ⟨(i6 hx).1, trivial⟩
  · have hrun : s.recv ≠ .exited := fun hx => by
      rw [(i6 hx).1] at hsd; cases hsd
    simp only [o, hp, hf]
    have hsub := GoMap.values_delete_sublist s.w.pending seq
    refine ⟨i1, fun p hp => Nat.lt_succ_of_lt (i2 p hp), ?_, ?_, ?_, fun hx => absurd hx hrun⟩
    · intro p hp
      simp only [GoMap.set, GoMap.values, List.map_cons, List.mem_cons] at hp
      rcases hp with h | h
      · rw [h]; exact Nat.lt_succ_self _
      · exact Nat.lt_succ_of_lt (i3 p (hsub.subset h))
    · simp only [GoMap.set, GoMap.values, List.map_cons, List.nodup_cons]
      refine ⟨?_, i4.sublist hsub⟩
      intro h
      exact Nat.lt_irrefl _ (i3 _ (hsub.subset h))
    · intro _ p hp
      simp only [GoMap.set, GoMap.values, List.map_cons, List.mem_cons] at hp
      rcases hp with h | h
      · rw [h]; exact fun hf => Nat.lt_irrefl _ (i2 _ hf)
      · exact i5 hrun p (hsub.subset h)

/-- The invariant depends on the signals, the pending table, the allocation counter and the
shutdown flag only. -/
theorem inv_of_same (s : Sys) (w1 : World) (hinv : s.Inv) (h1 : w1.fired = s.w.fired)
    (h2 : w1.pending = s.w.pending) (h3 : w1.nextCall = s.w.nextCall)
    (h4 : s.w.shutdown = true → w1.shutdown = true) :
    Sys.Inv { w := w1, recv := s.recv, writing := s.writing } := by
  obtain ⟨i1, i2, i3, i4, i5, i6⟩ := hinv
  unfold Sys.Inv
  simp only [h1, h2, h3]
  exact ⟨i1, i2, i3, i4, i5, fun hx => ⟨h4 (i6 hx).1, (i6 hx).2⟩⟩

/-- Every step of the goroutines keeps the invariant. -/
theorem step_inv (s : Sys) (e : Event) (hinv : s.Inv) : (s.step e).Inv := by
  cases e with
  | makeChan cap =>
    have f := makeChan_fields s.w cap
    exact inv_of_same s _ hinv f.2.2.2.2.1 f.2.2.2.1 f.2.2.2.2.2.2 (fun h => by rw [f.1]; exact h)
  | recvChan ch =>
    have f := recvChan_fields s.w ch
    exact inv_of_same s _ hinv f.2.2.2.2.1 f.2.2.2.1 f.2.2.2.2.2.2 (fun h => by rw [f.1]; exact h)
  | go sm args reply done =>
    simp only [Sys.step]
    cases hw : s.writing with
    | some seq => exact hinv
    | none =>
      cases hG : GoRegister s.w sm args reply done with
      | none => exact hinv
      | some r =>
        obtain ⟨w1, c, oseq⟩ := r
        exact inv_go s sm args reply done _ hinv hG
  | written writeErr =>
    simp only [Sys.step]
    cases hw : s.writing with
    | none => exact hinv
    | some seq =>
      have hrun : s.recv ≠ .exited := fun hx => by
        have := (hinv.2.2.2.2.2 hx).2
        rw [hw] at this
        cases this
      cases writeErr with
      | none =>
        obtain ⟨i1, i2, i3, i4, i5, i6⟩ := hinv
        exact ⟨i1, i2, i3, i4, i5, fun hx => absurd hx hrun⟩
      | some err =>
        exact inv_of_removes s _ seq s.recv none hinv (sendWritten_removes s.w seq err)
          (fun _ => hrun) Iff.rfl (fun _ => rfl)
  | frame hdr body =>
    simp only [Sys.step]
    cases hr : s.recv with
    | failed err => exact hinv
    | exited => exact hinv
    | running =>
      have hrun : s.recv ≠ .exited := by rw [hr]; exact fun h => RecvPc.noConfusion h
      cases hdr with
      | error e =>
        simp only [receiveStep]
        obtain ⟨i1, i2, i3, i4, i5, i6⟩ := hinv
        exact ⟨i1, i2, i3, i4, fun _ => i5 hrun, fun hx => RecvPc.noConfusion hx⟩
      | ok h =>
        have hrm := receiveStep_removes s.w h body
        cases hres : receiveStep s.w (.ok h) body with
        | mk w1 oerr =>
        rw [hres] at hrm
        cases oerr with
        | none =>
          exact inv_of_removes s w1 h.Seq .running s.writing hinv hrm (fun _ => hrun)
            ⟨fun hx => RecvPc.noConfusion hx, fun hx => absurd hx hrun⟩
            (fun hx => RecvPc.noConfusion hx)
        | some err =>
          exact inv_of_removes s w1 h.Seq (.failed err) s.writing hinv hrm (fun _ => hrun)
            ⟨fun hx => RecvPc.noConfusion hx, fun hx => absurd hx hrun⟩
            (fun hx => RecvPc.noConfusion hx)
  | terminate =>
    simp only [Sys.step]
    cases hr : s.recv with
    | running => exact hinv
    | exited => exact hinv
    | failed err =>
      cases hw : s.writing with
      | some seq => exact hinv
      | none => exact inv_terminate s err hinv hr
  | cancel call ctxErr =>
    simp only [Sys.step]
    refine inv_of_removes s _ _ s.recv s.writing hinv (cancel_removes s.w call ctxErr) ?_ Iff.rfl
      (fun hx => (hinv.2.2.2.2.2 hx).2)
    intro hne
    exact absurd (by simp [CallCancelled, removeCall]) hne
  | close closeErr =>
    simp only [Sys.step]
    refine inv_of_same s _ hinv ?_ ?_ ?_ ?_
    · unfold Close; split <;> rfl
    · unfold Close; split <;> rfl
    · unfold Close; split <;> rfl
    · intro h; unfold Close; split <;> exact h

theorem init_inv : Sys.init.Inv := by
  unfold Sys.Inv Sys.init NewClientCodec
  simp [GoMap.values]

theorem run_inv (evs : List Event) (s : Sys) (hinv : s.Inv) : (Sys.run s evs).Inv := by
  induction evs generalizing s with
  | nil => exact hinv
  | cons e evs ih => exact ih (s.step e) (step_inv s e hinv)

/-- C3 (no double completion). In every state that the goroutines of a client reach from
the client made by `NewClientCodec` through the steps of `Sys.step` (`Go` up to its write,
the end of `send` after the write, one iteration of `receive`, the `terminateCalls` that
ends `receive`, cancellation in `Call`, `Close`, and the caller's channel operations), every
call object occurs at most once among the calls on which `Call.done` has sent. -/
theorem C3_no_double_completion (evs : List Event) (p : Ptr) :
    (Sys.run Sys.init evs).w.fired.count p ≤ 1 :=
  List.nodup_iff_count_le_one.mp (run_inv evs Sys.init init_inv).1 p

/-- The run `sampleRun`: the call whose write failed (0), the call answered (1), the call
still pending when the stream broke (3) and the call refused after the shutdown (4) were
signalled once each; the call cancelled (2) and the late response signalled nothing. -/
theorem sampleRun_fired :
    (Sys.run Sys.init sampleRun).w.fired = [0, 1, 3, 4] ∧
    (Sys.run Sys.init sampleRun).recv = .exited ∧
    GoMap.keys (Sys.run Sys.init sampleRun).w.pending = [] := by
  decide

/-! ## handleRequest -/

theorem handle_step_inv (timeout : Nat) (result : Val × Option String) (h0 : Header) (s : HState)
    (e : HEvent) (hinv : HState.Inv timeout result h0 s) :
    HState.Inv timeout result h0 (HState.step timeout result s e) := by
  obtain ⟨hd, wt, h, out⟩ := s
  obtain ⟨i1, i2, i3⟩ := hinv
  simp only at i1 i2 i3
  cases e with
  | callReturns =>
    cases hd <;> cases wt <;> simp_all [HState.Inv, HState.step]
  | rendezvous =>
    cases hd <;> cases wt <;> simp_all [HState.Inv, HState.step]
  | timer =>
    by_cases ht : timeout = 0
    · cases hd <;> cases wt <;> simp_all [HState.Inv, HState.step]
    · cases hd <;> cases wt <;> simp_all [HState.Inv, HState.step, timeoutFrame]
  | respond =>
    cases hr : result.2 with
    | none => cases hd <;> cases wt <;> simp_all [HState.Inv, HState.step, handlerFrame]
    | some err => cases hd <;> cases wt <;> simp_all [HState.Inv, HState.step, handlerFrame]

theorem handle_run_inv (timeout : Nat) (result : Val × Option String) (h0 : Header)
    (evs : List HEvent) (s : HState) (hinv : HState.Inv timeout result h0 s) :
    HState.Inv timeout result h0 (HState.run timeout result s evs) := by
  induction evs generalizing s with
  | nil => exact hinv
  | cons e evs ih => exact ih _ (handle_step_inv timeout result h0 s e hinv)

theorem handle_init_inv (timeout : Nat) (result : Val × Option String) (h0 : Header) :
    HState.Inv timeout result h0 (HState.init h0) := by
  simp [HState.Inv, HState.init]

/-- What is sent in every state `handleRequest` and its handler goroutine reach: at most one
frame, with the sequence number of the request; the timeout frame and nothing from the
handler after the timer branch; nothing but the handler's frame after the branch
`<-callCh`; nothing while `handleRequest` waits. -/
theorem handle_frames_sent (timeout : Nat) (result : Val × Option String) (h0 : Header)
    (evs : List HEvent) :
    (HState.run timeout result (HState.init h0) evs).out.length ≤ 1 ∧
    (∀ f ∈ (HState.run timeout result (HState.init h0) evs).out, f.1.Seq = h0.Seq) ∧
    ((HState.run timeout result (HState.init h0) evs).waiter = .returnedTimeout →
      timeout ≠ 0 ∧
      (HState.run timeout result (HState.init h0) evs).out = [timeoutFrame h0] ∧
      (HState.run timeout result (HState.init h0) evs).handler ≠ .responding ∧
      (HState.run timeout result (HState.init h0) evs).handler ≠ .finished) ∧
    ((HState.run timeout result (HState.init h0) evs).waiter = .returnedCall →
      (HState.run timeout result (HState.init h0) evs).out = [] ∨
      (HState.run timeout result (HState.init h0) evs).out = [handlerFrame h0 result]) ∧
    ((HState.run timeout result (HState.init h0) evs).waiter = .waiting →
      (HState.run timeout result (HState.init h0) evs).out = []) := by
  have hinv := handle_run_inv timeout result h0 evs _ (handle_init_inv timeout result h0)
  generalize HState.run timeout result (HState.init h0) evs = s at hinv
  obtain ⟨i1, i2, i3⟩ := hinv
  have hseq1 : (timeoutFrame h0).1.Seq = h0.Seq := rfl
  have hseq2 : (handlerFrame h0 result).1.Seq = h0.Seq := by
    unfold handlerFrame; split <;> rfl
  cases hw : s.waiter with
  | waiting =>
    have := (i1 hw).1
    simp [this]
  | returnedTimeout =>
    obtain ⟨a, b, c⟩ := i2 hw
    refine ⟨by simp [b], by simp [b, hseq1], fun _ => ⟨a, b, ?_, ?_⟩, by simp, by simp⟩
    · rcases c with c | c <;> simp [c]
    · rcases c with c | c <;> simp [c]
  | returnedCall =>
    rcases i3 hw with ⟨_, b, _⟩ | ⟨_, b⟩
    · simp [b]
    · simp [b, hseq2]

/-- Once `handleRequest` has returned, through either branch, no step changes that. -/
theorem handle_waiter_stays (timeout : Nat) (result : Val × Option String) (evs : List HEvent)
    (s : HState) (h : s.waiter ≠ .waiting) :
    (HState.run timeout result s evs).waiter = s.waiter := by
  induction evs generalizing s with
  | nil => rfl
  | cons e evs ih =>
    have hstep : (HState.step timeout result s e).waiter = s.waiter := by
      obtain ⟨hd, wt, hh, out⟩ := s
      simp only at h
      cases e <;> cases hd <;> cases wt <;> simp_all [HState.step] <;> split <;> rfl
    have := ih (HState.step timeout result s e) (by rw [hstep]; exact h)
    simp only [HState.run, List.foldl_cons] at this ⊢
    rw [this, hstep]

/-- Past its send on `callCh`, the handler goroutine has finished after its step `respond`. -/
theorem handle_finishes (timeout : Nat) (result : Val × Option String) (evs : List HEvent)
    (s : HState) (h : (s.handler = .responding ∧ .respond ∈ evs) ∨ s.handler = .finished) :
    (HState.run timeout result s evs).handler = .finished := by
  induction evs generalizing s with
  | nil =>
    rcases h with ⟨_, hm⟩ | h
    · cases hm
    · exact h
  | cons e evs ih =>
    simp only [HState.run, List.foldl_cons]
    apply ih
    obtain ⟨hd, wt, hh, out⟩ := s
    rcases h with ⟨h1, hm⟩ | h
    · simp only at h1
      subst h1
      rcases List.mem_cons.mp hm with e1 | e1
      · subst e1
        right
        simp only [HState.step]
        split <;> rfl
      · cases e
        · left; exact ⟨by simp [HState.step], e1⟩
        · left; exact ⟨by cases wt <;> simp [HState.step], e1⟩
        · left
          refine ⟨?_, e1⟩
          cases wt <;> simp only [HState.step]
          split <;> rfl
        · right
          simp only [HState.step]
          split <;> rfl
    · simp only at h
      subst h
      right
      cases e <;> cases wt <;> simp only [HState.step]
      split <;> rfl

/-- C6 (at most one response per request). For every handle timeout, every request header
`h0`, every result of the handler and every interleaving of the steps of `handleRequest`
and of its handler goroutine.
* At most one frame is handed to `sendResponse`, and it carries the sequence number of the
  request; while `handleRequest` waits, nothing is sent.
* The timer fires first: when, with a non-zero timeout, the `select` takes the timer branch
  while `handleRequest` waits, `handleRequest` returns through that branch and the timeout
  error response is sent, and whatever happens afterwards it stays the one frame sent: the
  handler goroutine never gets past its send on `callCh`, so its result is never sent.
* The handler completes first: `svc.call` returns and the handler goroutine stands at its
  send; when that send meets the receive while `handleRequest` waits, `handleRequest` returns
  through the branch `<-callCh`; from then on nothing is sent but the handler's frame (its
  reply, or its error with the placeholder body), which is sent by the step `respond` of
  the handler goroutine, and no timeout response. -/
theorem C6_at_most_one_response (timeout : Nat) (result : Val × Option String) (h0 : Header)
    (evs : List HEvent) :
    (HState.run timeout result (HState.init h0) evs).out.length ≤ 1 ∧
    (∀ f ∈ (HState.run timeout result (HState.init h0) evs).out, f.1.Seq = h0.Seq) ∧
    ((HState.run timeout result (HState.init h0) evs).waiter = .waiting →
      (HState.run timeout result (HState.init h0) evs).out = []) ∧
    (timeout ≠ 0 → (HState.run timeout result (HState.init h0) evs).waiter = .waiting →
      ∀ post,
        (HState.run timeout result (HState.init h0) (evs ++ .timer :: post)).waiter = .returnedTimeout ∧
        (HState.run timeout result (HState.init h0) (evs ++ .timer :: post)).out = [timeoutFrame h0] ∧
        (HState.run timeout result (HState.init h0) (evs ++ .timer :: post)).handler ≠ .responding ∧
        (HState.run timeout result (HState.init h0) (evs ++ .timer :: post)).handler ≠ .finished) ∧
    ((HState.run timeout result (HState.init h0) evs).waiter = .returnedTimeout →
      timeout ≠ 0 ∧
      (HState.run timeout result (HState.init h0) evs).out = [timeoutFrame h0] ∧
      (HState.run timeout result (HState.init h0) evs).handler ≠ .responding ∧
      (HState.run timeout result (HState.init h0) evs).handler ≠ .finished) ∧
    ((HState.run timeout result (HState.init h0) evs).handler = .calling →
      (HState.run timeout result (HState.init h0) (evs ++ [.callReturns])).handler = .atSend) ∧
    ((HState.run timeout result (HState.init h0) evs).waiter = .waiting →
      (HState.run timeout result (HState.init h0) evs).handler = .atSend →
      ∀ post,
        (HState.run timeout result (HState.init h0) (evs ++ .rendezvous :: post)).waiter = .returnedCall ∧
        ((HState.run timeout result (HState.init h0) (evs ++ .rendezvous :: post)).out = [] ∨
          (HState.run timeout result (HState.init h0) (evs ++ .rendezvous :: post)).out =
            [handlerFrame h0 result]) ∧
        (.respond ∈ post →
          (HState.run timeout result (HState.init h0) (evs ++ .rendezvous :: post)).out =
            [handlerFrame h0 result])) ∧
    ((HState.run timeout result (HState.init h0) evs).waiter = .returnedCall →
      (HState.run timeout result (HState.init h0) evs).out = [] ∨
      (HState.run timeout result (HState.init h0) evs).out = [handlerFrame h0 result]) := by
  obtain ⟨s1, s2, s3, s4, s5⟩ := handle_frames_sent timeout result h0 evs
  have hsplit : ∀ (e : HEvent) (post : List HEvent),
      HState.run timeout result (HState.init h0) (evs ++ e :: post) =
        HState.run timeout result
          (HState.step timeout result (HState.run timeout result (HState.init h0) evs) e) post := by
    intro e post
    simp [HState.run, List.foldl_append]
  refine ⟨s1, s2, s5, ?_, s3, ?_, ?_, s4⟩
  · intro ht hw post
    have hstep : (HState.step timeout result (HState.run timeout result (HState.init h0) evs)
        .timer).waiter = .returnedTimeout := by
      simp only [HState.step, hw, ht, if_false]
    have hfin : (HState.run timeout result (HState.init h0) (evs ++ .timer :: post)).waiter =
        .returnedTimeout := by
      rw [hsplit, handle_waiter_stays timeout result post _ (by rw [hstep]; exact fun h => nomatch h)]
      exact hstep
    obtain ⟨_, _, t3, _, _⟩ := handle_frames_sent timeout result h0 (evs ++ .timer :: post)
    obtain ⟨_, b, c, d⟩ := t3 hfin
    exact ⟨hfin, b, c, d⟩
  · intro hc
    rw [hsplit]
    simp only [HState.run, List.foldl_nil] at hc ⊢
    simp only [HState.step, hc]
  · intro hw ha post
    have hstep : (HState.step timeout result (HState.run timeout result (HState.init h0) evs)
        .rendezvous).waiter = .returnedCall ∧
        (HState.step timeout result (HState.run timeout result (HState.init h0) evs)
        .rendezvous).handler = .responding := by
      simp only [HState.step, hw, ha, and_self]
    have hfin : (HState.run timeout result (HState.init h0) (evs ++ .rendezvous :: post)).waiter =
        .returnedCall := by
      rw [hsplit, handle_waiter_stays timeout result post _ (by rw [hstep.1]; exact fun h => nomatch h)]
      exact hstep.1
    obtain ⟨_, _, _, t4, _⟩ := handle_frames_sent timeout result h0 (evs ++ .rendezvous :: post)
    refine ⟨hfin, t4 hfin, ?_⟩
    intro hresp
    have hdone : (HState.run timeout result (HState.init h0) (evs ++ .rendezvous :: post)).handler =
        .finished := by
      rw [hsplit]
      exact handle_finishes timeout result post _ (Or.inl ⟨hstep.2, hresp⟩)
    have hinv := handle_run_inv timeout result h0 (evs ++ .rendezvous :: post) _
      (handle_init_inv timeout result h0)
    rcases hinv.2.2 hfin with ⟨x, _, _⟩ | ⟨_, y⟩
    · rw [hdone] at x; cases x
    · exact y

/-- The instance of C6 on a request for `Foo.Sum` with sequence number 7, a handle timeout of
one second and a handler that returns 5. When the timer branch is taken after the handler
has returned but before its send was received, the timeout response is the one frame sent,
whatever follows; when the send is received first, the reply 5 is the one frame sent, even
though the timer fires later. -/
theorem C6_at_most_one_response_witness :
    (HState.run 1000000000 (.int 5, none) (HState.init { ServiceMethod := "Foo.Sum", Seq := 7, Error := "" })
        ([.callReturns] ++ .timer :: [.rendezvous, .respond])).out =
      [({ ServiceMethod := "Foo.Sum", Seq := 7, Error := timeoutMessage }, .invalidRequest)] ∧
    (HState.run 1000000000 (.int 5, none) (HState.init { ServiceMethod := "Foo.Sum", Seq := 7, Error := "" })
        ([.callReturns] ++ .rendezvous :: [.timer, .respond])).out =
      [({ ServiceMethod := "Foo.Sum", Seq := 7, Error := "" }, .int 5)] :=
  have key := C6_at_most_one_response 1000000000 (.int 5, none)
    { ServiceMethod := "Foo.Sum", Seq := 7, Error := "" } [.callReturns]
  ⟨(key.2.2.2.1 (by decide) (by decide) [.rendezvous, .respond]).2.1,
    (key.2.2.2.2.2.2.1 (by decide) (by decide) [.timer, .respond]).2.2 (by decide)⟩

/-- Two schedules of `handleRequest` with a timeout of one second on a request for `Foo.Sum`
whose handler returns 5: when the timer branch is taken first the timeout response is the
only frame, whatever the handler goroutine does later; when the handler's send is received
first its reply is the only frame, whatever the timer does later. -/
theorem handleRequest_schedules :
    (HState.run 1000000000 (.int 5, none) (HState.init { ServiceMethod := "Foo.Sum", Seq := 7, Error := "" })
        [.timer, .callReturns, .rendezvous, .respond]).out =
      [({ ServiceMethod := "Foo.Sum", Seq := 7, Error := timeoutMessage }, .invalidRequest)] ∧
    (HState.run 1000000000 (.int 5, none) (HState.init { ServiceMethod := "Foo.Sum", Seq := 7, Error := "" })
        [.callReturns, .rendezvous, .timer, .respond, .timer]).out =
      [({ ServiceMethod := "Foo.Sum", Seq := 7, Error := "" }, .int 5)] := by
  decide

/-! ## The serving loop on a body that does not decode -/

/-- C7, the code on a request whose argument does not decode. `readRequest` returns the
request with a nil error, the argument left at its zero value; `serveCodec` therefore calls
the handler (the counter of `Foo.Sum` goes to 1) and the one frame written for sequence
number 1 is a success response with an empty `Error` and the body 0, not an error frame.
The loop then goes on to the next header, here the end of the stream. -/
theorem C7_decode_failure_not_reported :
    (Server.readRequest fooServer badBodyConn).map (fun r => (r.1.input.length, r.2.2)) = some (0, none) ∧
    ((Server.readRequest fooServer badBodyConn).bind (fun r => r.2.1)).map (fun req => req.argv) =
      some (.args 0 0) ∧
    (Server.serveCodec (fun _ => false) fooServer badBodyConn).map (fun r => r.2.output) =
      some [({ ServiceMethod := "Foo.Sum", Seq := 1, Error := "" }, .int 0)] ∧
    (Server.serveCodec (fun _ => false) fooServer badBodyConn).map
        (fun r => (r.1.serviceMap.get "Foo").bind
          (fun svc => (svc.method.get "Sum").map methodType.NumCalls)) =
      some (some 1) := by
  decide

/-- The sibling path of C7: a request whose service does not resolve is answered by an error
frame with its sequence number, and the loop goes on. -/
theorem serveCodec_unknown_service :
    (Server.serveCodec (fun _ => false) fooServer
        { input := [ .header { ServiceMethod := "Bar.Sum", Seq := 4, Error := "" } ], output := [] }).map
      (fun r => r.2.output) =
      some [({ ServiceMethod := "Bar.Sum", Seq := 4, Error := "rpc server: can't find service Bar" },
        .invalidRequest)] := by
  decide

/-! ## The dispatch table -/

/-- The test `TestNewService`: the table of `Foo` holds `Sum` and nothing else. -/
theorem newService_foo :
    (newService fooReceiver).map (fun s => (s.name, GoMap.keys s.method)) = some ("Foo", ["Sum"]) := by
  decide

/-- C8, the code on a receiver with an exported method `Bad(args Args, reply int) error`:
the method is stored in the dispatch table although its reply parameter is not a pointer,
and `newReply` panics on its descriptor. -/
theorem C8_non_pointer_reply_registered :
    (newService badReceiver).map (fun s => GoMap.keys s.method) = some ["Sum", "Bad"] ∧
    ((newService badReceiver).bind (fun s => s.method.get "Bad")).map (fun m => m.ReplyType) =
      some tyInt ∧
    ((newService badReceiver).bind (fun s => s.method.get "Bad")).map (fun m => m.newReply) =
      some none := by
  decide

/-- The body of the loop of `registerMethods`: a method that passes the tests is stored
under its name, any other leaves the table as it is. -/
theorem registerMethod_eq (table : GoMap String methodType) (m : Method) :
    registerMethod table m =
      if m.qualifies then
        table.set m.Name { method := m, ArgType := m.In.getD 1 errorType,
                           ReplyType := m.In.getD 2 errorType, numCalls := 0 }
      else table := by
  obtain ⟨name, ins, outs, f⟩ := m
  unfold registerMethod Method.qualifies
  simp only
  by_cases h1 : ins.length = 3
  · by_cases h2 : outs.length = 1
    · by_cases h3 : outs.head? = some errorType
      · match ins, h1 with
        | [r, a, b], _ =>
          by_cases h4 : isExportedOrBuiltinType a = true
          · by_cases h5 : isExportedOrBuiltinType b = true
            · simp [h2, h3, h4, h5]
            · simp [h2, h3, h4, h5]
          · simp [h2, h3, h4]
      · simp [h1, h2, h3]
    · simp [h1, h2]
  · simp [h1]

/-- The table built by the loop of `registerMethods`: a name is a key exactly when the
table had it or a method of that name passes the tests. -/
theorem registerLoop_isSome (ms : List Method) (table : GoMap String methodType) (n : String) :
    ((ms.foldl registerMethod table).get n).isSome = true ↔
      (table.get n).isSome = true ∨ ∃ m ∈ ms, m.Name = n ∧ m.qualifies = true := by
  induction ms generalizing table with
  | nil => simp
  | cons m ms ih =>
    simp only [List.foldl_cons]
    rw [ih, registerMethod_eq]
    by_cases hq : m.qualifies = true
    · simp only [hq, if_true]
      by_cases hn : n = m.Name
      · subst hn
        simp [GoMap.get_set_self, hq]
      · rw [GoMap.get_set_ne _ _ _ _ hn]
        constructor
        · rintro (h | ⟨m1, hm1, e, q⟩)
          · exact Or.inl h
          · exact Or.inr ⟨m1, List.mem_cons_of_mem _ hm1, e, q⟩
        · rintro (h | ⟨m1, hm1, e, q⟩)
          · exact Or.inl h
          · rcases List.mem_cons.mp hm1 with e1 | e1
            · subst e1; exact absurd e.symm hn
            · exact Or.inr ⟨m1, e1, e, q⟩
    · simp only [hq]
      constructor
      · rintro (h | ⟨m1, hm1, e, q⟩)
        · exact Or.inl h
        · exact Or.inr ⟨m1, List.mem_cons_of_mem _ hm1, e, q⟩
      · rintro (h | ⟨m1, hm1, e, q⟩)
        · exact Or.inl h
        · rcases List.mem_cons.mp hm1 with e1 | e1
          · subst e1; exact absurd q hq
          · exact Or.inr ⟨m1, e1, e, q⟩

/-- The dispatch table as the code builds it: a name is a key of the table exactly when the
receiver has an exported method of that name with three inputs, one output of type `error`
and argument and reply types that are exported or builtin. Whether the reply type is a
pointer is not looked at. -/
theorem registerMethods_keys (s : service) (n : String) :
    (s.registerMethods.method.get n).isSome = true ↔
      ∃ m ∈ s.rcvr.methods, m.Name = n ∧ IsExported m.Name = true ∧ m.qualifies = true := by
  unfold service.registerMethods reflectMethods
  simp only
  rw [registerLoop_isSome]
  simp only [GoMap.get, Option.isSome_none, Bool.false_eq_true, false_or, List.mem_filter]
  constructor
  · rintro ⟨m, ⟨hm, hx⟩, e, q⟩
    exact ⟨m, hm, e, hx, q⟩
  · rintro ⟨m, hm, e, hx, q⟩
    exact ⟨m, ⟨hm, hx⟩, e, q⟩

/-- A receiver without a method that passes the tests gets an empty table, not an error. -/
theorem registerMethods_empty (s : service)
    (h : ∀ m ∈ s.rcvr.methods, IsExported m.Name = true → m.qualifies = false) :
    s.registerMethods.method = [] := by
  unfold service.registerMethods reflectMethods
  simp only
  have key : ∀ (ms : List Method) (t : GoMap String methodType),
      (∀ m ∈ ms, m.qualifies = false) → ms.foldl registerMethod t = t := by
    intro ms
    induction ms with
    | nil => intro t _; rfl
    | cons m ms ih =>
      intro t hq
      simp only [List.foldl_cons]
      rw [registerMethod_eq, hq m (List.mem_cons_self _ _)]
      exact ih t (fun m1 h1 => hq m1 (List.mem_cons_of_mem _ h1))
  apply key
  intro m hm
  rw [List.mem_filter] at hm
  exact h m hm.1 hm.2

/-! ## Register -/

/-- The function `ast.IsExported` on some names: upper-case letters are not only those of
ASCII, and a name starting with an underscore, a digit or a lower-case letter is not
exported, nor is the empty name. -/
theorem IsExported_examples :
    IsExported "Foo" = true ∧ IsExported "foo" = false ∧
    IsExported "Ärger" = true ∧ IsExported "ärger" = false ∧
    IsExported "Ωmega" = true ∧ IsExported "ωmega" = false ∧
    IsExported "Жук" = true ∧ IsExported "жук" = false ∧
    IsExported "_Foo" = false ∧ IsExported "世界" = false ∧ IsExported "" = false := by
  decide

/-- The function `Register` on a receiver whose type name starts with an upper-case letter
outside ASCII: the process does not exit, nil is returned and the service is registered
under that name with its method `Sum`. -/
theorem Register_umlaut :
    IsExported (indirectName umlautReceiver.typ) = true ∧
    (NewServer.Register umlautReceiver).map
        (fun r => (r.1.serviceMap.map (fun e => (e.1, GoMap.keys e.2.method)), r.2)) =
      some ([("Ärger", ["Sum"])], none) := by
  decide

/-- C9, the receiver that refutes it: the name `foo` is not registered on a new server, yet
`Register` does not return nil and adds nothing; the process exits in `newService`. -/
theorem C9_register_unexported_exits :
    (NewServer.serviceMap.get "foo").isNone = true ∧
    indirectName unexportedReceiver.typ = "foo" ∧
    (NewServer.Register unexportedReceiver).isNone = true := by
  decide

/-- What `newService` returns has the name of the receiver's type, and that name is
exported. -/
theorem newService_name (rcvr : Receiver) (svc : service) (h : newService rcvr = some svc) :
    svc.name = indirectName rcvr.typ ∧ IsExported (indirectName rcvr.typ) = true := by
  unfold newService at h
  simp only at h
  by_cases he : IsExported (indirectName rcvr.typ) = true
  · simp only [he, Bool.not_true, Bool.false_eq_true, if_false, Option.some.injEq] at h
    rw [← h]
    exact ⟨rfl, he⟩
  · simp [he] at h

/-- C9 (duplicate registration), as the code has it. For every server and every two
receivers with the same service name: if `Register` of the first returned nil, then
`Register` of the second returns a non-nil error and leaves the server as it is, the name
still mapped to the service of the first. `Register` of a receiver whose name is exported
and not yet present returns nil and maps the name to the new service, all other names as
before. On a receiver whose name is not exported `Register` does not return: the process
exits in `newService`. -/
theorem C9_register_duplicate (s : Server) (r1 r2 : Receiver) :
    (∀ s1, s.Register r1 = some (s1, none) → indirectName r2.typ = indirectName r1.typ →
      (s1.serviceMap.get (indirectName r1.typ) = newService r1 ∧
       ∃ err, s1.Register r2 = some (s1, some err))) ∧
    (IsExported (indirectName r1.typ) = true → s.serviceMap.get (indirectName r1.typ) = none →
      ∃ s1, s.Register r1 = some (s1, none) ∧
        s1.serviceMap.get (indirectName r1.typ) = newService r1 ∧
        ∀ n, n ≠ indirectName r1.typ → s1.serviceMap.get n = s.serviceMap.get n) ∧
    (IsExported (indirectName r1.typ) = false → s.Register r1 = none) := by
  refine ⟨?_, ?_, ?_⟩
  · intro s1 hreg hname
    unfold Server.Register at hreg
    cases hn1 : newService r1 with
    | none => simp [hn1] at hreg
    | some svc1 =>
      obtain ⟨e1, x1⟩ := newService_name r1 svc1 hn1
      simp only [hn1] at hreg
      cases hg : s.serviceMap.get svc1.name with
      | some old => simp [hg] at hreg
      | none =>
        simp only [hg, Option.some.injEq, Prod.mk.injEq, and_true] at hreg
        have hget : s1.serviceMap.get (indirectName r1.typ) = some svc1 := by
          rw [← hreg, ← e1]
          exact GoMap.get_set_self _ _ _
        refine ⟨hget, ?_⟩
        have x2 : IsExported (indirectName r2.typ) = true := by rw [hname]; exact x1
        cases hn2 : newService r2 with
        | none =>
          unfold newService at hn2
          simp [x2] at hn2
        | some svc2 =>
          obtain ⟨e2, _⟩ := newService_name r2 svc2 hn2
          refine ⟨"rpc: service already defined: " ++ svc2.name, ?_⟩
          unfold Server.Register
          simp only [hn2]
          rw [e2, hname, hget]
  · intro hx hg
    cases hn1 : newService r1 with
    | none =>
      unfold newService at hn1
      simp [hx] at hn1
    | some svc1 =>
      obtain ⟨e1, _⟩ := newService_name r1 svc1 hn1
      refine ⟨{ s with serviceMap := s.serviceMap.set svc1.name svc1 }, ?_, ?_, ?_⟩
      · unfold Server.Register
        simp only [hn1]
        rw [e1, hg]
      · simp only [e1]
        exact GoMap.get_set_self _ _ _
      · intro n hn
        simp only [e1]
        exact GoMap.get_set_ne _ _ _ _ hn
  · intro hx
    unfold Server.Register newService
    simp [hx]

/-- The instance of C9 on the receiver of the tests: the first `Register(&foo)` on a new
server returns nil, the second an error, and the server is the same after it. -/
theorem C9_register_duplicate_witness :
    (∃ s1, NewServer.Register fooReceiver = some (s1, none) ∧
      s1.serviceMap.get "Foo" = newService fooReceiver) ∧
    (∀ s1, NewServer.Register fooReceiver = some (s1, none) →
      ∃ err, s1.Register fooReceiver = some (s1, some err)) :=
  ⟨by
      obtain ⟨s1, h1, h2, _⟩ := (C9_register_duplicate NewServer fooReceiver fooReceiver).2.1
        (by decide) rfl
      exact ⟨s1, h1, h2⟩,
    fun s1 h => ((C9_register_duplicate NewServer fooReceiver fooReceiver).1 s1 h rfl).2⟩

/-! ## Call counting -/

/-- C10, the state that refutes it: with the counter of `Foo.Sum` at `2 ^ 64 - 1`, a call
of the method returns nil and leaves `NumCalls` at 0. -/
theorem C10_counter_wraps :
    (fooAtMax.method.get "Sum").map methodType.NumCalls = some (U64 - 1) ∧
    (fooAtMax.call "Sum" (.args 2 3) (.int 0)).map
        (fun r => ((r.1.method.get "Sum").map methodType.NumCalls, r.2)) =
      some (some 0, .int 5, none) := by
  decide

/-- C10 (call counting), as the code has it. For every method descriptor `m` stored under
`mname` in a service, `call` runs the method function on the receiver, the argument and the
reply and returns exactly its error (and the reply it left); afterwards the descriptor under
`mname` is `m` with `NumCalls` increased by one modulo `2 ^ 64`, that is by exactly 1 unless
the counter was at `2 ^ 64 - 1`, whether the error is nil or not; the descriptors under all
other names are unchanged. -/
theorem C10_call_counts (s : service) (mname : String) (m : methodType) (argv replyv : Val)
    (hm : s.method.get mname = some m) :
    ∃ s1, s.call mname argv replyv =
        some (s1, (m.method.Func s.rcvr.value argv replyv).1, (m.method.Func s.rcvr.value argv replyv).2) ∧
      s1.method.get mname = some { m with numCalls := incU64 m.numCalls } ∧
      (m.NumCalls + 1 < U64 →
        (s1.method.get mname).map methodType.NumCalls = some (m.NumCalls + 1)) ∧
      (∀ n, n ≠ mname → s1.method.get n = s.method.get n) := by
  refine ⟨{ s with method := s.method.set mname { m with numCalls := incU64 m.numCalls } }, ?_, ?_, ?_, ?_⟩
  · unfold service.call
    simp only [hm]
  · exact GoMap.get_set_self _ _ _
  · intro hlt
    have hlt2 : m.numCalls + 1 < U64 := hlt
    simp only [GoMap.get_set_self, Option.map_some', methodType.NumCalls, incU64]
    rw [Nat.mod_eq_of_lt hlt2]
  · intro n hn
    exact GoMap.get_set_ne _ _ _ _ hn

/-- The service `newService(&foo)` of the tests, spelled out. -/
theorem newService_foo_eq : newService fooReceiver = some (fooServiceAt 0) := rfl

/-- The test `TestMethodType_Call`, the instance of C10 on `Foo.Sum` with
`Args{Num1: 2, Num2: 3}`: the call returns nil, the reply is 5 and `NumCalls` is 1. -/
theorem C10_call_counts_witness :
    ∃ s1, (fooServiceAt 0).call "Sum" (.args 2 3) (.int 0) = some (s1, .int 5, none) ∧
      (s1.method.get "Sum").map methodType.NumCalls = some 1 :=
  have ⟨s1, h1, _, h3, _⟩ := C10_call_counts (fooServiceAt 0) "Sum"
    { method := sumMethod, ArgType := tyArgs, ReplyType := .ptr tyInt, numCalls := 0 }
    (.args 2 3) (.int 0) rfl
  ⟨s1, h1, h3 (by decide)⟩

/-! ## Demultiplexing over a whole stream of responses -/

/-- An iteration of the receive loop touches no call that is not pending. -/
theorem receiveStep_calls_of_not_pending (w : World) (hdr : Except String Header)
    (body : Except String Val) (p : Ptr) (hp : p ∉ GoMap.values w.pending) :
    (receiveStep w hdr body).1.calls p = w.calls p := by
  cases hdr with
  | error e => rfl
  | ok h =>
    simp only [receiveStep, removeCall]
    cases hg : w.pending.get h.Seq with
    | none => rfl
    | some c =>
      have hne : p ≠ c := fun e => hp (e ▸ GoMap.mem_values_of_get _ _ _ hg)
      by_cases he : h.Error.length = 0
      · cases body <;> simp [he, hne]
      · simp [he, hne]

/-- An iteration of the receive loop adds nothing to the pending table. -/
theorem receiveStep_pending_sublist (w : World) (hdr : Except String Header)
    (body : Except String Val) :
    List.Sublist (GoMap.values (receiveStep w hdr body).1.pending) (GoMap.values w.pending) := by
  cases hdr with
  | error e => exact List.Sublist.refl _
  | ok h =>
    rw [(receiveStep_removes w h body).1]
    exact GoMap.values_delete_sublist _ _

/-- The receive loop, `terminateCalls` at its end included, leaves the reply of every call
that is not pending as it is. -/
theorem receive_reply_of_not_pending (fs : List Frame) (w : World) (p : Ptr)
    (hp : p ∉ GoMap.values w.pending) :
    ((receive w fs).calls p).Reply = (w.calls p).Reply := by
  have hterm : ∀ (w1 : World) (err : String), ((terminateCalls w1 err).calls p).Reply = (w1.calls p).Reply := by
    intro w1 err
    have := terminateLoop_calls err (GoMap.values w1.pending) { w1 with shutdown := true } p
    unfold terminateCalls
    rw [this]
    split <;> rfl
  induction fs generalizing w with
  | nil => exact hterm w EOF
  | cons f fs ih =>
    have h1 := receiveStep_calls_of_not_pending w f.h f.body p hp
    have h2 : p ∉ GoMap.values (receiveStep w f.h f.body).1.pending :=
      fun hm => hp ((receiveStep_pending_sublist w f.h f.body).subset hm)
    simp only [receive]
    cases hres : receiveStep w f.h f.body with
    | mk w1 oerr =>
    rw [hres] at h1 h2
    cases oerr with
    | none =>
      simp only
      rw [ih w1 h2, h1]
    | some err =>
      simp only
      rw [hterm w1 err, h1]

/-- Demultiplexing over a stream. Let the stream carry response frames without error whose
sequence numbers are pairwise distinct, in any order, and then end; let no call be pending
under two keys. Then every call that was pending under the sequence number of one of the
frames ends with the body of that frame as its reply. -/
theorem receive_matches_by_seq (fs : List (Header × Val)) (w : World)
    (herr : ∀ f ∈ fs, f.1.Error = "")
    (hkeys : (fs.map (fun f => f.1.Seq)).Nodup)
    (hvals : (GoMap.values w.pending).Nodup)
    (h : Header) (v : Val) (c : Ptr) (hmem : (h, v) ∈ fs) (hc : w.pending.get h.Seq = some c) :
    ((receive w (fs.map (fun f => { h := .ok f.1, body := .ok f.2 }))).calls c).Reply = v := by
  induction fs generalizing w with
  | nil => cases hmem
  | cons f0 fs ih =>
    obtain ⟨h0, v0⟩ := f0
    have he0 : h0.Error = "" := herr (h0, v0) (List.mem_cons_self _ _)
    have hk : h0.Seq ∉ fs.map (fun f => f.1.Seq) ∧ (fs.map (fun f => f.1.Seq)).Nodup := by
      simpa using hkeys
    have hrm := receiveStep_removes w h0 (.ok v0)
    have hnone : (receiveStep w (.ok h0) (.ok v0)).2 = none := by
      simp only [receiveStep, removeCall, he0, emptyString_length]
      cases hg : w.pending.get h0.Seq <;> simp [readBodyNil]
    simp only [List.map_cons, receive]
    cases hres : receiveStep w (.ok h0) (.ok v0) with
    | mk w1 oerr =>
    rw [hres] at hnone hrm
    simp only at hnone
    subst hnone
    simp only
    have hv1 : (GoMap.values w1.pending).Nodup := by
      rw [hrm.1]; exact hvals.sublist (GoMap.values_delete_sublist _ _)
    rcases List.mem_cons.mp hmem with e | e
    · cases e
      have hstep := (receiveStep_reply w h c v he0 hc)
      rw [hres] at hstep
      have hnp : c ∉ GoMap.values w1.pending := by
        rw [hrm.1]; exact GoMap.not_mem_values_delete _ _ _ hc hvals
      rw [receive_reply_of_not_pending _ w1 c hnp, hstep]
    · have hne : h.Seq ≠ h0.Seq := by
        intro e2
        exact hk.1 (List.mem_map.mpr ⟨(h, v), e, e2⟩)
      have hc1 : w1.pending.get h.Seq = some c := by
        rw [hrm.1, GoMap.get_delete_ne _ _ _ hne]; exact hc
      exact ih w1 (fun f hf => herr f (List.mem_cons_of_mem _ hf)) hk.2 hv1 e hc1

/-- The scenario of `TestServeDay3` in every order of arrival: in whatever order the five
responses arrive, call `i` ends with the reply `i * i + i`. -/
theorem fiveCalls_any_order (order : List Nat) (hperm : List.Perm order [0, 1, 2, 3, 4])
    (i : Nat) (hi : i < 5) :
    ((receive fiveCalls (responsesInOrder order)).calls i).Reply = .int (i * i + i) := by
  have hmap : responsesInOrder order =
      (order.map (fun j => (({ ServiceMethod := "Foo.Sum", Seq := j + 1, Error := "" } : Header),
        Val.int (j * j + j)))).map (fun f => { h := .ok f.1, body := .ok f.2 }) := by
    simp [responsesInOrder, okFrame, List.map_map, Function.comp_def]
  rw [hmap]
  have hnd : order.Nodup := hperm.nodup_iff.mpr (by decide)
  have hin : i ∈ order := hperm.mem_iff.mpr (by
    have : i = 0 ∨ i = 1 ∨ i = 2 ∨ i = 3 ∨ i = 4 := by omega
    rcases this with e | e | e | e | e <;> subst e <;> decide)
  refine receive_matches_by_seq _ fiveCalls ?_ ?_ (by decide)
    { ServiceMethod := "Foo.Sum", Seq := i + 1, Error := "" } (.int (i * i + i)) i ?_ ?_
  · intro f hf
    obtain ⟨j, _, rfl⟩ := List.mem_map.mp hf
    rfl
  · rw [List.map_map]
    exact hnd.map (fun a b e => by simpa using e)
  · exact List.mem_map.mpr ⟨i, hin, rfl⟩
  · have : i = 0 ∨ i = 1 ∨ i = 2 ∨ i = 3 ∨ i = 4 := by omega
    rcases this with e | e | e | e | e <;> subst e <;> decide

/-! ## Name resolution -/

theorem lastIndexFrom_not_mem (c : Char) (xs : List Char) (i : Nat) (best : Int) (h : c ∉ xs) :
    lastIndexFrom c xs i best = best := by
  induction xs generalizing i best with
  | nil => rfl
  | cons x xs ih =>
    have hx : ¬ x = c := fun e => h (e ▸ List.mem_cons_self _ _)
    have hxs : c ∉ xs := fun e => h (List.mem_cons_of_mem _ e)
    simp only [lastIndexFrom, hx, if_false]
    exact ih (i + 1) best hxs

/-- The loop of `LastIndex` on a string cut at the last occurrence of the character. -/
theorem lastIndexFrom_split (c : Char) (a b : List Char) (i : Nat) (best : Int) (h : c ∉ b) :
    lastIndexFrom c (a ++ c :: b) i best = ((i + a.length : Nat) : Int) := by
  induction a generalizing i best with
  | nil =>
    simp only [List.nil_append, lastIndexFrom, if_true, List.length_nil, Nat.add_zero]
    exact lastIndexFrom_not_mem c b (i + 1) i h
  | cons x a ih =>
    show lastIndexFrom c (a ++ c :: b) (i + 1) (if x = c then (i : Int) else best) = _
    rw [ih (i + 1), List.length_cons]
    congr 1
    omega

/-- Every list that holds the character is cut in one way at its last occurrence. -/
theorem exists_last_split (c : Char) (xs : List Char) (h : c ∈ xs) :
    ∃ a b, xs = a ++ c :: b ∧ c ∉ b := by
  induction xs with
  | nil => cases h
  | cons x xs ih =>
    by_cases hxs : c ∈ xs
    · obtain ⟨a, b, e, hb⟩ := ih hxs
      exact ⟨x :: a, b, by rw [e]; rfl, hb⟩
    · rcases List.mem_cons.mp h with e | e
      · exact ⟨[], xs, by rw [e]; rfl, hxs⟩
      · exact absurd e hxs

theorem LastIndex_no_dot (sm : String) (h : '.' ∉ sm.data) : LastIndex sm '.' = -1 :=
  lastIndexFrom_not_mem '.' sm.data 0 (-1) h

theorem LastIndex_split (sm : String) (a b : List Char) (hs : sm.data = a ++ '.' :: b)
    (hb : '.' ∉ b) : LastIndex sm '.' = (a.length : Int) := by
  unfold LastIndex
  rw [hs, lastIndexFrom_split '.' a b 0 (-1) hb]
  simp

/-- The method `findService` on a name without a dot. -/
theorem findService_no_dot (s : Server) (sm : String) (h : '.' ∉ sm.data) :
    s.findService sm =
      (none, none, some ("rpc server: service/method request ill-format: " ++ sm)) := by
  unfold Server.findService
  simp [LastIndex_no_dot sm h]

/-- The method `findService` on a name cut at its last dot into `a` and `b`. -/
theorem findService_split (s : Server) (sm : String) (a b : List Char)
    (hs : sm.data = a ++ '.' :: b) (hb : '.' ∉ b) :
    s.findService sm =
      match s.serviceMap.get (String.mk a) with
      | none => (none, none, some ("rpc server: can't find service " ++ String.mk a))
      | some svc =>
        match svc.method.get (String.mk b) with
        | none => (some svc, none, some ("rpc server: can't find method " ++ String.mk b))
        | some mtype => (some svc, some mtype, none) := by
  unfold Server.findService
  have hnn : ¬ ((a.length : Int) < 0) := by omega
  simp only [LastIndex_split sm a b hs hb, hnn, if_false, Int.toNat_ofNat, hs]
  have e1 : List.take a.length (a ++ '.' :: b) = a := by simp
  have e2 : List.drop (a.length + 1) (a ++ '.' :: b) = b := by
    rw [List.drop_append_eq_append_drop]
    simp
  rw [e1, e2]

/-- C11 (name resolution). For every server and every string `sm`, `findService sm` returns
an error exactly when `sm` holds no dot, or, `sm` being cut at its last dot into `a` and
`b`, no service is registered under `a` or the dispatch table of the service registered
under `a` has no key `b`. Otherwise, with a nil error, it returns the service registered
under the text before the last dot and the method descriptor stored under the text after
it. -/
theorem C11_findService (s : Server) (sm : String) :
    ((s.findService sm).2.2 ≠ none ↔
      ('.' ∉ sm.data ∨
        ∃ a b, sm.data = a ++ '.' :: b ∧ '.' ∉ b ∧
          (s.serviceMap.get (String.mk a) = none ∨
            ∃ svc, s.serviceMap.get (String.mk a) = some svc ∧
              svc.method.get (String.mk b) = none))) ∧
    (∀ a b svc m, sm.data = a ++ '.' :: b → '.' ∉ b →
      s.serviceMap.get (String.mk a) = some svc → svc.method.get (String.mk b) = some m →
      s.findService sm = (some svc, some m, none)) := by
  constructor
  · constructor
    · intro herr
      by_cases hd : '.' ∈ sm.data
      · obtain ⟨a, b, hs, hb⟩ := exists_last_split '.' sm.data hd
        refine Or.inr ⟨a, b, hs, hb, ?_⟩
        rw [findService_split s sm a b hs hb] at herr
        cases hg : s.serviceMap.get (String.mk a) with
        | none => exact Or.inl rfl
        | some svc =>
          refine Or.inr ⟨svc, rfl, ?_⟩
          cases hm : svc.method.get (String.mk b) with
          | none => rfl
          | some m => simp [hg, hm] at herr
      · exact Or.inl hd
    · rintro (hd | ⟨a, b, hs, hb, hg | ⟨svc, hg, hm⟩⟩)
      · rw [findService_no_dot s sm hd]; simp
      · rw [findService_split s sm a b hs hb, hg]; simp
      · rw [findService_split s sm a b hs hb, hg]
        simp only [hm]
        simp
  · intro a b svc m hs hb hg hm
    rw [findService_split s sm a b hs hb, hg]
    simp only [hm]

/-- The instance of C11 on the server of the tests: `Foo.Sum` resolves to the service `Foo`
and its descriptor of `Sum`; `FooSum` (no dot), `Bar.Sum` (no such service) and `Foo.sum`
(no such key) give an error. -/
theorem C11_findService_witness :
    (fooServer.findService "Foo.Sum").2.2 = none ∧
    ((fooServer.findService "Foo.Sum").1.map (fun svc => svc.name) = some "Foo" ∧
      (fooServer.findService "Foo.Sum").2.1.map (fun m => m.method.Name) = some "Sum") ∧
    (fooServer.findService "FooSum").2.2 ≠ none ∧
    (fooServer.findService "Bar.Sum").2.2 ≠ none ∧
    (fooServer.findService "Foo.sum").2.2 ≠ none :=
  have hfoo : fooServer.serviceMap.get (String.mk "Foo".data) = some (fooServiceAt 0) := rfl
  have hsum : (fooServiceAt 0).method.get (String.mk "Sum".data) =
      some { method := sumMethod, ArgType := tyArgs, ReplyType := .ptr tyInt, numCalls := 0 } := rfl
  have hok := (C11_findService fooServer "Foo.Sum").2 "Foo".data "Sum".data _ _ rfl (by decide)
    hfoo hsum
  ⟨by rw [hok], by rw [hok]; exact ⟨rfl, rfl⟩,
    (C11_findService fooServer "FooSum").1.mpr (Or.inl (by decide)),
    (C11_findService fooServer "Bar.Sum").1.mpr
      (Or.inr ⟨"Bar".data, "Sum".data, rfl, by decide, Or.inl rfl⟩),
    (C11_findService fooServer "Foo.sum").1.mpr
      (Or.inr ⟨"Foo".data, "sum".data, rfl, by decide, Or.inr ⟨fooServiceAt 0, hfoo, rfl⟩⟩)⟩

/-! ## The handshake -/

/-- C12 (handshake rejection). For every server and every connection: when the first
message does not decode as an option message, or decodes to an option whose `MagicNumber`
is not `conf.MagicNumber`, or whose `CodeType` is not a key of `NewCodecFuncMap`, then
`ServeConn` returns with the server as it was (no handler was invoked, no option stored),
the values of the connection unread, nothing written, and the connection closed. The
registry has the one key `application/gob`; `application/json` is not a key. -/
theorem C12_handshake_rejected (timerFirst : Header → Bool) (s : Server) (conn : NetConn) :
    (∀ e, conn.handshake = .error e →
      s.ServeConn timerFirst conn = some (s, { conn with closed := true })) ∧
    (∀ opt, conn.handshake = .ok opt → opt.MagicNumber ≠ conf.MagicNumber →
      s.ServeConn timerFirst conn = some (s, { conn with closed := true })) ∧
    (∀ opt, conn.handshake = .ok opt → NewCodecFuncMap.get opt.CodeType = none →
      s.ServeConn timerFirst conn = some (s, { conn with closed := true })) ∧
    GoMap.keys NewCodecFuncMap = [codec.GobType] ∧
    NewCodecFuncMap.get codec.JsonType = none := by
  refine ⟨?_, ?_, ?_, rfl, rfl⟩
  · intro e he
    unfold Server.ServeConn
    rw [he]
  · intro opt ho hm
    unfold Server.ServeConn
    rw [ho]
    simp only [hm, ne_eq, not_false_eq_true, if_true]
  · intro opt ho hc
    unfold Server.ServeConn
    rw [ho]
    simp only [hc]
    split <;> rfl

/-- The instance of C12 on a handshake that names `application/json`: the request that
follows is not read, nothing is written, the counter of `Foo.Sum` stays 0 and the
connection is closed. -/
theorem C12_handshake_rejected_witness :
    (fooServer.ServeConn (fun _ => false) jsonConn).map
        (fun r => (r.2.codec.input.length, r.2.codec.output, r.2.closed,
          (r.1.serviceMap.get "Foo").bind (fun svc => (svc.method.get "Sum").map methodType.NumCalls))) =
      some (2, [], true, some 0) := by
  rw [(C12_handshake_rejected (fun _ => false) fooServer jsonConn).2.2.1 _ rfl rfl]
  decide

/-- The same connection with the default options as handshake is served: the request, which
reaches the codec (the peer sent it after the handshake was read), is read and answered with
the sum. -/
theorem ServeConn_accepted :
    (fooServer.ServeConn (fun _ => false) gobConn).map
        (fun r => (r.2.codec.input.length, r.2.codec.output, r.2.closed,
          (r.1.serviceMap.get "Foo").bind (fun svc => (svc.method.get "Sum").map methodType.NumCalls))) =
      some (0, [({ ServiceMethod := "Foo.Sum", Seq := 1, Error := "" }, .int 5)], true, some 1) := by
  decide

/-! ## Cancellation -/

theorem GoMap.get_delete_of_none {κ β : Type} [DecidableEq κ] (m : GoMap κ β) (s k : κ)
    (h : m.get k = none) : (GoMap.delete m s).get k = none := by
  by_cases e : k = s
  · rw [e]; exact GoMap.get_delete_self m s
  · rw [GoMap.get_delete_ne m s k e]; exact h

/-- A removal leaves a sequence number that is not pending not pending. -/
theorem removes_get_none (w w1 : World) (s seq : Nat) (hrm : Removes w w1 s)
    (h : w.pending.get seq = none) : w1.pending.get seq = none := by
  rw [hrm.1]
  exact GoMap.get_delete_of_none _ _ _ h

theorem sendWritten_get_none (w : World) (s seq : Nat) (writeErr : Option String)
    (h : w.pending.get seq = none) : (sendWritten w s writeErr).pending.get seq = none := by
  cases writeErr with
  | none => exact h
  | some err => exact removes_get_none w _ s seq (sendWritten_removes w s err) h

/-- A successful `registerCall`: the number assigned is the counter, and the call is stored
under it. -/
theorem registerCall_ok (w : World) (call : Ptr) (hf : ¬ (w.closing || w.shutdown) = true) :
    ∃ w1, registerCall w call = (w1, w.seq, none) ∧ w1.pending = w.pending.set w.seq call := by
  have hf2 : (w.closing || w.shutdown) = false := by
    cases hh : (w.closing || w.shutdown)
    · rfl
    · exact absurd hh hf
  refine ⟨(registerCall w call).1, ?_, ?_⟩
  · unfold registerCall
    simp [hf2]
  · unfold registerCall
    simp [hf2]

/-- One use of the client leaves a sequence number that is not pending not pending, unless
it assigns that number. -/
theorem apply_get_none (w : World) (op : ClientOp) (seq : Nat) (h : w.pending.get seq = none)
    (hne : (ClientOp.apply w op).2 ≠ some seq) :
    (ClientOp.apply w op).1.pending.get seq = none := by
  cases op with
  | register call =>
    by_cases hf : (w.closing || w.shutdown) = true
    · have e : registerCall w call = (w, 0, some ErrShutdown) := by
        unfold registerCall; simp [hf]
      simp only [ClientOp.apply, e]
      exact h
    · obtain ⟨w1, e, hp⟩ := registerCall_ok w call hf
      simp only [ClientOp.apply, e] at hne ⊢
      have hs : seq ≠ w.seq := fun e2 => hne (by rw [e2])
      rw [hp, GoMap.get_set_ne _ _ _ _ hs]
      exact h
  | remove s => exact GoMap.get_delete_of_none _ _ _ h
  | terminate err =>
    simp only [ClientOp.apply]
    rw [(terminateCalls_flags w err).2.2.2.1]
    exact h
  | close closeErr =>
    simp only [ClientOp.apply, Close]
    split <;> exact h
  | frame hdr body =>
    cases hdr with
    | error e => exact h
    | ok hd => exact removes_get_none w _ hd.Seq seq (receiveStep_removes w hd body) h
  | go sm args reply done writeErr =>
    cases hG : GoRegister w sm args reply done with
    | none => simpa [ClientOp.apply, hG] using h
    | some r =>
      obtain ⟨w3, c, oseq⟩ := r
      obtain ⟨w1, ch, hw1, hr⟩ := GoRegister_eq w sm args reply done _ hG
      have hp1 : w1.pending = w.pending := by
        rcases hw1 with e | e
        · rw [e]
        · rw [e]; exact (makeChan_fields w 10).2.2.2.1
      obtain ⟨_, _, _, n4, _, _, _⟩ := newCall_fields w1 sm args reply ch
      obtain ⟨_, _, g3⟩ := sendRegister_effect (newCall w1 sm args reply ch).1 w1.nextCall
      rw [n4, hp1] at g3
      have e1 : w3 = (sendRegister (newCall w1 sm args reply ch).1 w1.nextCall).1 :=
        congrArg (fun x => x.1) hr
      have e2 : oseq = (sendRegister (newCall w1 sm args reply ch).1 w1.nextCall).2 :=
        congrArg (fun x => x.2.2) hr
      rw [← e1, ← e2] at g3
      simp only [ClientOp.apply, hG] at hne ⊢
      rcases g3 with ⟨o, hp, _⟩ | ⟨s1, o, _, hp, _⟩
      · subst o
        simp only
        rw [hp]; exact h
      · subst o
        simp only at hne ⊢
        have hs : seq ≠ s1 := fun e => hne (by rw [e])
        apply sendWritten_get_none
        rw [hp, GoMap.get_set_ne _ _ _ _ hs]
        exact h
  | cancel call ctxErr => exact removes_get_none w _ _ seq (cancel_removes w call ctxErr) h
  | makeChan cap =>
    simp only [ClientOp.apply]
    rw [(makeChan_fields w cap).2.2.2.1]; exact h
  | recvChan ch =>
    simp only [ClientOp.apply]
    rw [(recvChan_fields w ch).2.2.2.1]; exact h

/-- A run of uses leaves a sequence number that is not pending not pending, unless the run
assigns that number. -/
theorem runOps_get_none (ops : List ClientOp) (w : World) (seq : Nat)
    (h : w.pending.get seq = none) (hne : seq ∉ (runOps w ops).2) :
    (runOps w ops).1.pending.get seq = none := by
  induction ops generalizing w with
  | nil => exact h
  | cons op ops ih =>
    have h1 := apply_get_none w op seq h
    cases hA : ClientOp.apply w op with
    | mk w1 o =>
    rw [hA] at h1
    cases o with
    | none =>
      simp only [runOps, hA] at hne ⊢
      exact ih w1 (h1 (by simp)) hne
    | some s1 =>
      simp only [runOps, hA, List.mem_cons, not_or] at hne ⊢
      exact ih w1 (h1 (by simpa using fun e => hne.1 e.symm)) hne.2

/-- The iteration of the receive loop on a header whose sequence number is not pending: the
body is read into nothing, no call object, no signal and no channel changes. -/
theorem receiveStep_unknown (w : World) (h : Header) (body : Except String Val)
    (hn : w.pending.get h.Seq = none) :
    (receiveStep w (.ok h) body).2 = readBodyNil body ∧
    (receiveStep w (.ok h) body).1.calls = w.calls ∧
    (receiveStep w (.ok h) body).1.fired = w.fired ∧
    (receiveStep w (.ok h) body).1.chans = w.chans ∧
    (receiveStep w (.ok h) body).1.closing = w.closing ∧
    (receiveStep w (.ok h) body).1.shutdown = w.shutdown := by
  simp [receiveStep, removeCall, hn]

/-- C13 (cancellation). For every client state and every call, the branch `<-ctx.Done()` of
`Call` removes the sequence number of the call from the pending table, whether it was
present or not, and no other; it returns a non-nil error; the flags `closing` and
`shutdown`, so `IsAvailable`, the call objects and the signals sent are as before. A
response frame with that sequence number that arrives afterwards, be it at once or after
any further uses of the client that do not assign the number to another call, takes the
unknown-sequence path: the receive loop reads its body into nothing (`ReadBody(nil)`), no
call is signalled and no call object, so no reply, changes. -/
theorem C13_cancellation (w : World) (call : Ptr) (ctxErr : String) :
    (CallCancelled w call ctxErr).1.pending.get (w.calls call).Seq = none ∧
    (∀ s, s ≠ (w.calls call).Seq →
      (CallCancelled w call ctxErr).1.pending.get s = w.pending.get s) ∧
    (CallCancelled w call ctxErr).2 = some ("rpc client: call failed " ++ ctxErr) ∧
    (CallCancelled w call ctxErr).1.closing = w.closing ∧
    (CallCancelled w call ctxErr).1.shutdown = w.shutdown ∧
    IsAvailable (CallCancelled w call ctxErr).1 = IsAvailable w ∧
    (CallCancelled w call ctxErr).1.calls = w.calls ∧
    (CallCancelled w call ctxErr).1.fired = w.fired ∧
    (∀ ops h body, h.Seq = (w.calls call).Seq →
      (w.calls call).Seq ∉ (runOps (CallCancelled w call ctxErr).1 ops).2 →
      (receiveStep (runOps (CallCancelled w call ctxErr).1 ops).1 (.ok h) body).2 = readBodyNil body ∧
      (receiveStep (runOps (CallCancelled w call ctxErr).1 ops).1 (.ok h) body).1.calls =
        (runOps (CallCancelled w call ctxErr).1 ops).1.calls ∧
      (receiveStep (runOps (CallCancelled w call ctxErr).1 ops).1 (.ok h) body).1.fired =
        (runOps (CallCancelled w call ctxErr).1 ops).1.fired) := by
  have hnone : (CallCancelled w call ctxErr).1.pending.get (w.calls call).Seq = none := by
    simp [CallCancelled, removeCall, GoMap.get_delete_self]
  refine ⟨hnone, ?_, rfl, rfl, rfl, rfl, rfl, rfl, ?_⟩
  · intro s hs
    simp [CallCancelled, removeCall, GoMap.get_delete_ne _ _ _ hs]
  · intro ops h body hseq hfresh
    have hn := runOps_get_none ops _ _ hnone hfresh
    rw [← hseq] at hn
    obtain ⟨a, b, c, _⟩ := receiveStep_unknown _ h body hn
    exact ⟨a, b, c⟩

/-- The instance of C13 on the client of five pending `Foo.Sum` calls: the caller of the
third call (sequence number 3) gives up; the client stays available; the response with
sequence number 3 and body 6 that arrives next leaves the reply of the call at 0 and
signals nothing. -/
theorem C13_cancellation_witness :
    (fiveCalls.calls 2).Seq = 3 ∧
    IsAvailable (CallCancelled fiveCalls 2 "context deadline exceeded").1 = true ∧
    ((receiveStep (CallCancelled fiveCalls 2 "context deadline exceeded").1
        (.ok { ServiceMethod := "Foo.Sum", Seq := 3, Error := "" }) (.ok (.int 6))).1.calls 2).Reply =
      .int 0 ∧
    (receiveStep (CallCancelled fiveCalls 2 "context deadline exceeded").1
        (.ok { ServiceMethod := "Foo.Sum", Seq := 3, Error := "" }) (.ok (.int 6))).1.fired = [] :=
  have key := C13_cancellation fiveCalls 2 "context deadline exceeded"
  have late := key.2.2.2.2.2.2.2.2 [] { ServiceMethod := "Foo.Sum", Seq := 3, Error := "" }
    (.ok (.int 6)) (by decide) (by decide)
  ⟨by decide, by rw [key.2.2.2.2.2.1]; decide, by
      have e := late.2.1
      simp only [runOps] at e
      rw [e, key.2.2.2.2.2.2.1]
      decide, by
      have e := late.2.2
      simp only [runOps] at e
      rw [e, key.2.2.2.2.2.2.2.1]
      decide⟩

/-! ## Stream alignment on the server -/

/-- What `readRequest` consumes after a header read: when the service or the method does
not resolve it returns at once, the value that follows the header left unread; when they
resolve it consumes the value that follows the header, whether that decodes or not. -/
theorem readRequest_consumed (s : Server) (h : Header) (rest : List Item) (out : List (Header × Val)) :
    (∀ err, (s.findService h.ServiceMethod).2.2 = some err →
      ∃ req, s.readRequest { input := .header h :: rest, output := out } =
        some ({ input := rest, output := out }, some req, some err)) ∧
    (∀ svc m replyv r rest1, s.findService h.ServiceMethod = (svc, some m, none) →
      m.newReply = some replyv → rest = .body r :: rest1 →
      ∃ req, s.readRequest { input := .header h :: rest, output := out } =
        some ({ input := rest1, output := out }, some req, none)) := by
  constructor
  · intro err he
    unfold Server.readRequest Server.readRequestHeader Conn.ReadHeader
    simp only
    cases hf : s.findService h.ServiceMethod with
    | mk svc r =>
    obtain ⟨m, oerr⟩ := r
    rw [hf] at he
    simp only at he
    subst he
    cases m <;> exact ⟨_, rfl⟩
  · intro svc m replyv r rest1 hf hr hrest
    subst hrest
    unfold Server.readRequest Server.readRequestHeader Conn.ReadHeader
    simp only [hf, hr, Conn.ReadBody]
    cases r with
    | ok v => exact ⟨_, rfl⟩
    | error e => exact ⟨_, rfl⟩

/-- C14, the code on a request that does not resolve. On `twoRequests`, `readRequest`
returns the error for `Bar.Sum` with three values still to be read: the body of the first
request is left in the stream. `serveCodec` writes the error frame for sequence number 1,
then reads that body where the header of the second request is expected; the read fails,
the loop ends, and the request with sequence number 2 is neither read nor answered. -/
theorem C14_body_left_unread :
    (Server.readRequest fooServer twoRequests).map (fun r => (r.1.input.length, r.2.2)) =
      some (3, some "rpc server: can't find service Bar") ∧
    (Server.serveCodec (fun _ => false) fooServer twoRequests).map
        (fun r => (r.2.output, r.2.input.length)) =
      some ([({ ServiceMethod := "Bar.Sum", Seq := 1, Error := "rpc server: can't find service Bar" },
          .invalidRequest)], 2) := by
  decide

/-- The same two requests in the other order: the first resolves, its body is consumed,
and both are answered, one frame each. The order of the two frames is left open: the
handler goroutine of `Foo.Sum` may write before or after the loop writes the error. -/
theorem serveCodec_aligned_when_resolved :
    (Server.serveCodec (fun _ => false) fooServer
        { input :=
            [ .header { ServiceMethod := "Foo.Sum", Seq := 2, Error := "" }, .body (.ok (.args 2 3)),
              .header { ServiceMethod := "Bar.Sum", Seq := 1, Error := "" }, .body (.ok (.args 1 1)) ]
          output := [] }).map
      (fun r => (r.2.output.length,
        decide (({ ServiceMethod := "Foo.Sum", Seq := 2, Error := "" }, Val.int 5) ∈ r.2.output),
        decide (({ ServiceMethod := "Bar.Sum", Seq := 1, Error := "rpc server: can't find service Bar" },
          Val.invalidRequest) ∈ r.2.output))) =
      some (2, true, true) := by
  decide

end KRPC
